import Mathlib

/-!
Verification development for the broctl configuration-resolution core,
shallowly embedded from BroControl/config.py and BroControl/install.py.

Machine integers of the source are Python arbitrary-precision ints, so they
are embedded as Int/Nat directly.  Fallible code returns Except String.
Python dictionaries are embedded as association lists with replace-or-append
insertion, which preserves insertion order exactly as the source relies on.
The Node class and the BGraph overlay graph engine are not part of the
provided sources; their definitions below are modelled from the spec and
say so in their doc comments.
-/

namespace Broctl

/-! ## String helpers mirroring the Python string operations used by the source -/

/-- Python str.strip with no argument: remove whitespace from both ends. -/
def pyStrip (s : String) : String :=
  String.mk (((s.data.dropWhile Char.isWhitespace).reverse.dropWhile
    Char.isWhitespace).reverse)

/-- Auxiliary worker for pySplitChar, accumulating the current field. -/
def pySplitCharAux (c : Char) : List Char → List Char → List String
  | [], acc => [String.mk acc.reverse]
  | x :: xs, acc =>
    if x = c then String.mk acc.reverse :: pySplitCharAux c xs []
    else pySplitCharAux c xs (x :: acc)

/-- Python text.split(sep) for a one-character separator sep; on the empty
string it returns a singleton list holding the empty string, as Python does. -/
def pySplitChar (c : Char) (s : String) : List String :=
  pySplitCharAux c s.data []

/-- Auxiliary worker for pySplitEq1. -/
def pySplitEq1Aux : List Char → List Char → Option (String × String)
  | [], _ => none
  | x :: xs, acc =>
    if x = '=' then some (String.mk acc.reverse, String.mk xs)
    else pySplitEq1Aux xs (x :: acc)

/-- Python keyval.split(the equals sign, maxsplit 1): split at the first
equals sign only; none models the ValueError of unpacking a 1-tuple when no
equals sign occurs in the string. -/
def pySplitEq1 (s : String) : Option (String × String) :=
  pySplitEq1Aux s.data []

/-- Auxiliary worker for containsDoubleColon. -/
def containsDoubleColonAux : List Char → Bool
  | ':' :: ':' :: _ => true
  | _ :: xs => containsDoubleColonAux xs
  | [] => false

/-- Python membership test for the two-character substring used as the
reserved cluster separator. -/
def containsDoubleColon (s : String) : Bool :=
  containsDoubleColonAux s.data

/-- Value of a nonempty all-digit character list, none otherwise. -/
def digitsVal : List Char → Nat → Option Nat
  | [], n => some n
  | c :: cs, n =>
    if c.isDigit then digitsVal cs (10 * n + (c.toNat - '0'.toNat)) else none

/-- Python int(s) on strings: strip whitespace, optional sign, digits. -/
def pythonInt (s : String) : Option Int :=
  match (pyStrip s).data with
  | [] => none
  | '-' :: rest =>
    if rest = [] then none else (digitsVal rest 0).map (fun n => -(n : Int))
  | '+' :: rest =>
    if rest = [] then none else (digitsVal rest 0).map (fun n => (n : Int))
  | rest => (digitsVal rest 0).map (fun n => (n : Int))

/-! ## Association lists standing in for Python dictionaries -/

/-- Lookup in an association list, first binding wins. -/
def lookupA {α : Type} : List (String × α) → String → Option α
  | [], _ => none
  | (k0, v) :: rest, k => if k0 = k then some v else lookupA rest k

/-- Dictionary assignment: replace the binding in place when the key exists,
append a new binding otherwise.  This preserves insertion order, matching
the iteration order the source relies on. -/
def insertA {α : Type} : List (String × α) → String → α → List (String × α)
  | [], k, v => [(k, v)]
  | (k0, v0) :: rest, k, v =>
    if k0 = k then (k, v) :: rest else (k0, v0) :: insertA rest k v

/-- Increment a per-type counter, starting it at 1 on the first use; this is
the try/except KeyError pattern of the source. -/
def bumpCount (counts : List (String × Nat)) (k : String) : List (String × Nat) :=
  match lookupA counts k with
  | some n => insertA counts k (n + 1)
  | none => insertA counts k 1

/-- Python list.pop() with no argument: remove and return the last element;
none models the IndexError on an empty list. -/
def popLast {α : Type} : List α → Option (α × List α)
  | [] => none
  | [a] => some (a, [])
  | a :: b :: rest =>
    match popLast (b :: rest) with
    | some (x, r) => some (x, a :: r)
    | none => none

/-! ## The node data model -/

/-- Modelled from the spec: the Node class of BroControl/node.py is not part
of the provided sources.  Fields follow the data-model section of the spec;
the source stores the parsed env_vars dictionary and the assigned pin value
back into the same attributes that held the raw strings, which a typed record
cannot do, so the parsed forms live in the separate fields env_vars_d and
pin_cpu. -/
structure Node where
  name : String
  type : String := ""
  host : String := ""
  addr : Option String := none
  cluster : Option String := none
  roles : Option String := none
  port : Option String := none
  env_vars : String := ""
  env_vars_d : List (String × String) := []
  lb_procs : String := ""
  lb_method : String := ""
  lb_interfaces : String := ""
  interface : String := ""
  pin_cpus : String := ""
  pin_cpu : Option Int := none
  count : Nat := 0
deriving DecidableEq

/-- Node types accepted by _check_node. -/
def allowedTypes : List String := ["manager", "proxy", "worker", "standalone", "peer"]

/-! ## _get_pin_cpu_list (config.py lines 288 to 302) -/

/-- Mapping Python int over a list of strings; none models the ValueError
raised by the list comprehension when any item fails to parse. -/
def allInts : List String → Option (List Int)
  | [] => some []
  | s :: rest =>
    match pythonInt s, allInts rest with
    | some i, some l => some (i :: l)
    | _, _ => none

/-- Embedding of Configuration._get_pin_cpu_list: parse a comma-separated
list of ints, reject a negative minimum, and extend the list cyclically when
it is shorter than the number of worker processes.  none models ValueError. -/
def _get_pin_cpu_list (text : String) (numprocs : Nat) : Option (List Int) :=
  if text = "" then some []
  else
    match allInts (pySplitChar ',' text) with
    | none => none
    | some cpulist =>
      match cpulist with
      | [] => some []
      | c :: cs =>
        if cs.foldl min c < 0 then none
        else
          let cpulen := cpulist.length
          if numprocs > cpulen then
            some ((List.range numprocs).map (fun i => cpulist.getD (i % cpulen) 0))
          else some cpulist

/-! ## _get_env_var_dict (config.py lines 307 to 327) -/

/-- Strip one pair of matching outer quotes when the whole string is quoted,
as the source does before splitting. -/
def stripOuterQuotes (text : String) : String :=
  if text = "" then text
  else
    let first := text.data.headD ' '
    let last := text.data.getLast? |>.getD ' '
    if (first = '"' ∧ last = '"') ∨ (first = Char.ofNat 39 ∧ last = Char.ofNat 39) then
      String.mk (text.data.drop 1).dropLast
    else text

/-- Loop of _get_env_var_dict over the comma-separated entries. -/
def envLoop : List String → List (String × String) → Except String (List (String × String))
  | [], acc => .ok acc
  | kv :: rest, acc =>
    match pySplitEq1 kv with
    | none => .error "missing = in env_vars"
    | some (k, v) =>
      if pyStrip k = "" then .error "missing environment variable name in env_vars"
      else envLoop rest (insertA acc (pyStrip k) (pyStrip v))

/-- Embedding of Configuration._get_env_var_dict: convert a comma-separated
list of KEY=VALUE assignments to a dictionary; the empty string yields the
empty dictionary. -/
def _get_env_var_dict (text : String) : Except String (List (String × String)) :=
  let t := stripOuterQuotes text
  if t = "" then .ok []
  else envLoop (pySplitChar ',' t) []

/-! ## _check_node (config.py lines 368 to 460) -/

/-- Replica-creation loop of _check_node (the for num in range(2, numprocs+1)
body): copy the base node, rename it with the numeric suffix, reject a
duplicate name, append it to the store, advance the per-type counter, assign
the replica count and pin value, and consume one interface from the end of
the remaining interface list when load balancing by interfaces.  The returned
triple is the updated store, the updated counters, and the leftover interface
list. -/
def expandLoop (origname : String) (base : Node) (pin_cpus : List Int) :
    List Nat → List String → List (String × Node) → List (String × Nat) →
    Except String (List (String × Node) × List (String × Nat) × List String)
  | [], netifs, nodestore, counts => .ok (nodestore, counts, netifs)
  | num :: nums, netifs, nodestore, counts =>
    let newname := origname ++ "-" ++ Nat.repr num
    if (lookupA nodestore newname).isSome then
      .error ("Duplicate node name " ++ newname)
    else
      let counts1 := bumpCount counts base.type
      let c1 := (lookupA (bumpCount counts base.type) base.type).getD 0
      let n1 : Node := { base with name := newname, count := c1 }
      let n2 : Node :=
        match pin_cpus with
        | [] => n1
        | _ :: _ => { n1 with pin_cpu := some (pin_cpus.getD (num - 1) 0) }
      if base.lb_method = "interfaces" then
        match popLast netifs with
        | some (x, rest) =>
          expandLoop origname base pin_cpus nums rest
            (nodestore ++ [(newname, { n2 with interface := pyStrip x })]) counts1
        | none => .error "pop from empty list"
      else
        expandLoop origname base pin_cpus nums netifs
          (nodestore ++ [(newname, n2)]) counts1

/-- Interface pre-step of the load-balancing tail: when balancing by
interfaces, require a nonempty declared list whose length equals the number
of processes and hand the base node the last declared interface, returning
the remaining interface list. -/
def checkNodeIfacesStep (node : Node) (numprocs : Nat) :
    Except String (Node × List String) :=
  if node.lb_method = "interfaces" then
    if node.lb_interfaces = "" then
      .error ("List of load-balanced interfaces not specified for node " ++
        node.name)
    else
      let netifs := pySplitChar ',' node.lb_interfaces
      if netifs.length ≠ numprocs then
        .error ("Number of load-balanced interfaces is not same as number of load-balanced processes for node " ++
          node.name)
      else
        match popLast netifs with
        | some (x, rest) => .ok ({ node with interface := pyStrip x }, rest)
        | none => .error "pop from empty list"
  else .ok (node, [])

/-- Load-balancing tail of _check_node, entered only when lb_procs is set:
check the method, consume the last declared interface for the base node when
balancing by interfaces, rename the base node with suffix -1 and create the
numprocs minus one further replicas. -/
def checkNodeLb (node : Node) (numprocs : Nat) (pin_cpus : List Int)
    (nodestore : List (String × Node)) (counts : List (String × Nat)) :
    Except String (Node × List (String × Node) × List (String × Nat)) :=
  if node.lb_method = "" then
    .error ("No load balancing method given for node " ++ node.name)
  else if node.lb_method ∉ ["pf_ring", "myricom", "interfaces"] then
    .error ("Unknown load balancing method " ++ node.lb_method ++
      " given for node " ++ node.name)
  else
    match checkNodeIfacesStep node numprocs with
    | .error e => .error e
    | .ok (node1, netifs) =>
      let origname := node1.name
      let node2 : Node := { node1 with name := origname ++ "-1" }
      match expandLoop origname node2 pin_cpus (List.range' 2 (numprocs - 1))
          netifs nodestore counts with
      | .error e => .error e
      | .ok (nodestore1, counts1, _) => .ok (node2, nodestore1, counts1)

/-- Determination of numprocs inside _check_node: lb_procs must be set on
worker nodes only, parse as an int, and be at least 2; lb_method without
lb_procs is fatal; without load balancing numprocs is zero. -/
def checkNodeNumprocs (node : Node) : Except String Nat :=
  if node.lb_procs ≠ "" then
    if node.type ≠ "worker" then
      .error "Load balancing node config options are only for worker nodes"
    else
      match pythonInt node.lb_procs with
      | none =>
        .error ("Number of load-balanced processes must be an integer for node " ++
          node.name)
      | some n =>
        if n < 2 then
          .error ("Number of load-balanced processes must be at least 2 for node " ++
            node.name)
        else .ok n.toNat
  else if node.lb_method ≠ "" then
    .error ("Number of load-balanced processes not specified for node " ++ node.name)
  else .ok 0

/-- Embedding of Configuration._check_node.  The external host resolution
collaborator (socket.getaddrinfo) is passed in as the resolve parameter;
some addrStr is a successful resolution, none the gaierror.  The returned
triple is the checked (possibly renamed) node, the store extended with any
replica nodes, and the updated per-type counters. -/
def _check_node (resolve : String → Option String) (node : Node)
    (nodestore : List (String × Node)) (counts : List (String × Nat)) :
    Except String (Node × List (String × Node) × List (String × Nat)) :=
  if node.type = "" then .error ("No type given for node " ++ node.name)
  else if node.type ∉ allowedTypes then
    .error ("Unknown node type " ++ node.type ++ " given for node " ++ node.name)
  else if node.host = "" then .error ("No host given for node " ++ node.name)
  else
    match resolve node.host with
    | none => .error ("Unknown host " ++ node.host ++ " given for node " ++ node.name)
    | some addrStr =>
      let nodeA : Node := { node with addr := some ((pySplitChar '%' addrStr).headD "") }
      match _get_env_var_dict nodeA.env_vars with
      | .error e => .error ("Node " ++ nodeA.name ++ " config: " ++ e)
      | .ok evd =>
        let nodeB : Node := { nodeA with env_vars_d := evd }
        let counts1 := bumpCount counts nodeB.type
        let nodeC : Node := { nodeB with count := (lookupA counts1 nodeB.type).getD 0 }
        match checkNodeNumprocs nodeC with
        | .error e => .error e
        | .ok numprocs =>
          match _get_pin_cpu_list nodeC.pin_cpus numprocs with
          | none =>
            .error ("Pin cpus list must contain only non-negative integers for node " ++
              nodeC.name)
          | some pin_cpus =>
            let nodeD : Node :=
              match pin_cpus with
              | [] => nodeC
              | c :: _ => { nodeC with pin_cpu := some c }
            if nodeD.lb_procs = "" then .ok (nodeD, nodestore, counts1)
            else checkNodeLb nodeD numprocs pin_cpus nodestore counts1

/-- Node value produced by the validation prefix of _check_node (address,
parsed env_vars, count and pin assignment) before the load-balancing tail;
it mirrors the successive updates of the source and is used to state the
interface-assignment theorem. -/
def nodeAfter (node : Node) (addrStr : String) (evd : List (String × String))
    (counts : List (String × Nat)) (pins : List Int) : Node :=
  let nodeA : Node := { node with addr := some ((pySplitChar '%' addrStr).headD "") }
  let nodeB : Node := { nodeA with env_vars_d := evd }
  let counts1 := bumpCount counts nodeB.type
  let nodeC : Node := { nodeB with count := (lookupA counts1 nodeB.type).getD 0 }
  match pins with
  | [] => nodeC
  | c :: _ => { nodeC with pin_cpu := some c }

/-! ## _check_nodestore (config.py lines 462 to 501) -/

/-- Presence flags accumulated while scanning a node store. -/
structure StoreFlags where
  standalone : Bool := false
  manager : Bool := false
  proxy : Bool := false
  peer : Bool := false
deriving DecidableEq

/-- Scanning loop of _check_nodestore: a second manager is fatal, a manager
whose address is not locally recognized is fatal, other node types only set
presence flags. -/
def checkStoreLoop (localaddrs : List String) :
    List Node → StoreFlags → Except String StoreFlags
  | [], fl => .ok fl
  | n :: ns, fl =>
    if n.type = "manager" then
      if fl.manager then .error "Only one manager can be defined"
      else if (n.addr.getD "") ∈ localaddrs then
        checkStoreLoop localaddrs ns { fl with manager := true }
      else .error "Must run broctl only on manager node"
    else if n.type = "proxy" then checkStoreLoop localaddrs ns { fl with proxy := true }
    else if n.type = "standalone" then
      checkStoreLoop localaddrs ns { fl with standalone := true }
    else if n.type = "peer" then checkStoreLoop localaddrs ns { fl with peer := true }
    else checkStoreLoop localaddrs ns fl

/-- Embedding of Configuration._check_nodestore: an empty store is fatal, at
most one manager may exist, the manager must resolve locally, and either a
standalone deployment (alone unless peers are present) or a clustered one
with at least one manager and one proxy is required. -/
def _check_nodestore (localaddrs : List String)
    (nodestore : List (String × Node)) : Except String Unit :=
  if nodestore = [] then .error "No nodes found"
  else
    match checkStoreLoop localaddrs (nodestore.map Prod.snd) {} with
    | .error e => .error e
    | .ok fl =>
      if fl.standalone then
        if nodestore.length > 1 ∧ fl.peer = false then
          .error "More than one node defined in standalone node config"
        else .ok ()
      else if fl.manager = false then .error "No manager defined in node config"
      else if fl.proxy = false then .error "No proxy defined in node config"
      else .ok ()

/-! ## The flat node.cfg path, _read_nodes (config.py lines 331 to 366) -/

/-- Modelled from the spec: attribute assignment of the Node class (node.py
is not among the provided sources).  Dotted keys normalize to underscored
names, keys in the recognized set are stored on the node, and unrecognized
keys only produce a non-fatal warning and are dropped. -/
def applyKV (node : Node) (kv : String × String) : Node :=
  let key := String.mk (kv.1.data.map (fun c => if c = '.' then '_' else c))
  if key = "type" then { node with type := kv.2 }
  else if key = "host" then { node with host := kv.2 }
  else if key = "env_vars" then { node with env_vars := kv.2 }
  else if key = "lb_procs" then { node with lb_procs := kv.2 }
  else if key = "lb_method" then { node with lb_method := kv.2 }
  else if key = "lb_interfaces" then { node with lb_interfaces := kv.2 }
  else if key = "pin_cpus" then { node with pin_cpus := kv.2 }
  else node

/-- Section loop of _read_nodes: build a node from each section, validate and
expand it, reject a duplicate name, and append it to the store. -/
def readNodesLoop (resolve : String → Option String) :
    List (String × List (String × String)) → List (String × Node) →
    List (String × Nat) → Except String (List (String × Node))
  | [], nodestore, _ => .ok nodestore
  | (sec, items) :: rest, nodestore, counts =>
    let node := items.foldl applyKV { name := sec }
    match _check_node resolve node nodestore counts with
    | .error e => .error e
    | .ok (node1, nodestore1, counts1) =>
      if (lookupA nodestore1 node1.name).isSome then
        .error ("Duplicate node name " ++ node1.name)
      else readNodesLoop resolve rest (nodestore1 ++ [(node1.name, node1)]) counts1

/-- Embedding of the flat path of Configuration._read_nodes, taking the
sections already produced by the external config parser: process every
section, then validate the whole store. -/
def _read_nodes (resolve : String → Option String) (localaddrs : List String)
    (sections : List (String × List (String × String))) :
    Except String (List (String × Node)) :=
  match readNodesLoop resolve sections [] [] with
  | .error e => .error e
  | .ok nodestore =>
    match _check_nodestore localaddrs nodestore with
    | .error e => .error e
    | .ok _ => .ok nodestore

/-! ## Hierarchical documents: the post-json.load data -/

/-- Attribute set of one node entry of the hierarchical document, the value
json.load hands to _extractNodeJson; absent keys are none. -/
structure JEntry where
  id : Option String := none
  type : Option String := none
  cluster : Option String := none
  host : Option String := none
  env_vars : Option String := none
  lb_procs : Option String := none
  lb_method : Option String := none
  lb_interfaces : Option String := none
  pin_cpus : Option String := none
  roles : Option String := none
  port : Option String := none
deriving DecidableEq

/-- Top-level entry of the nodes array: an ordinary node, or a cluster entry
whose members array is nonempty. -/
structure JNodeEntry where
  entry : JEntry
  members : List JEntry := []
deriving DecidableEq

/-- Whole hierarchical document; each top-level key is optional so that the
missing-key check of _read_nodes_json is expressible. -/
structure JsonData where
  nodes : Option (List JNodeEntry) := none
  connections : Option (List (String × String)) := none
  head : Option JEntry := none
deriving DecidableEq

/-! ## The overlay graph engine

Modelled from the spec: BroControl/graph.py (the BGraph class) is not among
the provided sources, so the operations below follow the spec contracts for
addVertex/addEdge, isConnected, isTree, getRoot, getSuccessors and
getSubgraph. -/

/-- Modelled from the spec: vertex set with directed edges, each vertex
carrying the original declaration payload. -/
structure BGraph where
  verts : List String := []
  attrs : List (String × JNodeEntry) := []
  edges : List (String × String) := []
deriving DecidableEq

/-- Add a vertex if not yet present. -/
def addVert (g : BGraph) (v : String) : BGraph :=
  if v ∈ g.verts then g else { g with verts := g.verts ++ [v] }

/-- Modelled from the spec: addNodeAttr records the declaration payload of a
vertex, creating the vertex when needed. -/
def addNodeAttr (g : BGraph) (v : String) (payload : JNodeEntry) : BGraph :=
  let g1 := addVert g v
  { g1 with attrs := insertA g1.attrs v payload }

/-- Modelled from the spec: addEdge accumulates a directed edge, creating
missing endpoints. -/
def addEdge (g : BGraph) (u v : String) : BGraph :=
  let g1 := addVert (addVert g u) v
  { g1 with edges := g1.edges ++ [(u, v)] }

/-- Append the elements of the first list that are not yet in the second. -/
def addNew : List String → List String → List String
  | [], acc => acc
  | w :: ws, acc => addNew ws (if w ∈ acc then acc else acc ++ [w])

/-- Walk a list of vertices, adding the unseen next-neighbors of each. -/
def growFrom (next : String → List String) : List String → List String → List String
  | [], acc => acc
  | v :: vs, acc => growFrom next vs (addNew (next v) acc)

/-- One saturation step of reachability: append every next-neighbor of a
seen vertex that is not yet seen. -/
def grow (next : String → List String) (seen : List String) : List String :=
  growFrom next seen seen

/-- Iterated saturation with explicit fuel. -/
def iterGrow (next : String → List String) : Nat → List String → List String
  | 0, seen => seen
  | n + 1, seen => iterGrow next n (grow next seen)

/-- Undirected neighbors of a vertex. -/
def undirNext (g : BGraph) (v : String) : List String :=
  g.edges.filterMap (fun e =>
    if e.1 = v then some e.2 else if e.2 = v then some e.1 else none)

/-- Directed successors of a vertex; modelled from the spec contract of
getSuccessors. -/
def getSuccessors (g : BGraph) (v : String) : List String :=
  g.edges.filterMap (fun e => if e.1 = v then some e.2 else none)

/-- Modelled from the spec: every vertex reachable from every other with
edges treated as undirected; saturation from the first vertex suffices. -/
def isConnected (g : BGraph) : Bool :=
  match g.verts with
  | [] => true
  | v :: _ =>
    g.verts.all (fun u => u ∈ iterGrow (undirNext g) g.verts.length [v])

/-- Modelled from the spec: a tree has edge count equal to vertex count
minus one and is connected. -/
def isTree (g : BGraph) : Bool :=
  (g.edges.length + 1 = g.verts.length : Bool) && isConnected g

/-- Modelled from the spec: the unique vertex with zero incoming directed
edges; zero or multiple such vertices is fatal. -/
def getRoot (g : BGraph) : Except String String :=
  match g.verts.filter (fun v => g.edges.all (fun e => e.2 ≠ v)) with
  | [r] => .ok r
  | _ => .error "getRoot found no unique root"

/-- Vertices reachable from v by directed edges (v itself included). -/
def descendSet (g : BGraph) (v : String) : List String :=
  iterGrow (getSuccessors g) g.verts.length [v]

/-- Modelled from the spec: induced subgraph of a vertex and its transitive
directed descendants plus the edges among them. -/
def getSubgraph (g : BGraph) (v : String) : BGraph :=
  let ds := descendSet g v
  { verts := ds
    attrs := g.attrs.filter (fun p => decide (p.1 ∈ ds))
    edges := g.edges.filter (fun e => decide (e.1 ∈ ds ∧ e.2 ∈ ds)) }

/-! ## The hierarchical path, _read_nodes_json (config.py lines 510 to 675) -/

/-- Embedding of Configuration._extractNodeJson: copy every present entry
key onto the node, then reject a type outside the enum. -/
def _extractNodeJson (entry : JEntry) (node : Node) : Except String Node :=
  let n : Node := { node with
    type := entry.type.getD node.type
    host := entry.host.getD node.host
    cluster := if entry.cluster.isSome then entry.cluster else node.cluster
    env_vars := entry.env_vars.getD node.env_vars
    lb_procs := entry.lb_procs.getD node.lb_procs
    lb_method := entry.lb_method.getD node.lb_method
    lb_interfaces := entry.lb_interfaces.getD node.lb_interfaces
    pin_cpus := entry.pin_cpus.getD node.pin_cpus
    roles := if entry.roles.isSome then entry.roles else node.roles
    port := if entry.port.isSome then entry.port else node.port }
  if n.type ≠ "" ∧ n.type ∉ allowedTypes then
    .error ("strange node type detected, node " ++ n.name ++ " is " ++ n.type)
  else .ok n

/-- Embedding of Configuration._get_node_json: build the node from the json
entry, store it under its id (silently replacing any previous binding of
that id), then validate and expand it; mutation of the stored object by
_check_node is reflected by rebinding the id to the checked node. -/
def _get_node_json (resolve : String → Option String) (val : JEntry)
    (nodeId : String) (nodestore : List (String × Node))
    (counts : List (String × Nat)) :
    Except String (Node × List (String × Node) × List (String × Nat)) :=
  match _extractNodeJson val { name := nodeId } with
  | .error e => .error e
  | .ok node1 =>
    match _check_node resolve node1 (insertA nodestore nodeId node1) counts with
    | .error e => .error e
    | .ok (node2, store2, counts2) => .ok (node2, insertA store2 nodeId node2, counts2)

/-- Member loop of a cluster entry: namespace each member id under the
cluster id, build the node, and tag it with its cluster; the last member
built is carried so the per-entry node check can see it. -/
def processMembers (resolve : String → Option String) (cid : String) :
    List JEntry → Option Node → List (String × Node) → List (String × Nat) →
    Except String (Option Node × List (String × Node) × List (String × Nat))
  | [], last, store, counts => .ok (last, store, counts)
  | m :: ms, _, store, counts =>
    if m.id.isNone ∨ m.type.isNone then .error "Misconfigured configuration file"
    else
      let nodeId := cid ++ "::" ++ m.id.getD ""
      match _get_node_json resolve m nodeId store counts with
      | .error e => .error e
      | .ok (node, store1, counts1) =>
        let node1 : Node := { node with cluster := some cid }
        processMembers resolve cid ms (some node1) (insertA store1 nodeId node1) counts1

/-- Processing of one top-level entry of the nodes array: a cluster entry is
added to the overlay and its members expanded, an ordinary entry is rejected
when its id contains the reserved separator and otherwise built and added to
the overlay. -/
def processEntry (resolve : String → Option String)
    (st : BGraph × List (String × Node) × List (String × Nat))
    (ne : JNodeEntry) :
    Except String (BGraph × List (String × Node) × List (String × Nat)) :=
  let (ov, store, counts) := st
  if ne.entry.id.isNone ∨ ne.entry.type.isNone then
    .error "Misconfigured configuration file"
  else if ne.entry.type = some "cluster" then
    let cid := ne.entry.id.getD ""
    let ov1 := addNodeAttr ov cid ne
    match processMembers resolve cid ne.members none store counts with
    | .error e => .error e
    | .ok (last, store1, counts1) =>
      match last with
      | none => .error "no node found in node.cfg"
      | some _ => .ok (ov1, store1, counts1)
  else
    let nodeId := ne.entry.id.getD ""
    if containsDoubleColon nodeId then
      .error "Misconfigured ID entry of a node, id should not contain ::"
    else
      match _get_node_json resolve ne.entry nodeId store counts with
      | .error e => .error e
      | .ok (_, store1, counts1) => .ok (addNodeAttr ov nodeId ne, store1, counts1)

/-- Fold of processEntry over the nodes array. -/
def processEntries (resolve : String → Option String) :
    List JNodeEntry → BGraph × List (String × Node) × List (String × Nat) →
    Except String (BGraph × List (String × Node) × List (String × Nat))
  | [], st => .ok st
  | ne :: nes, st =>
    match processEntry resolve st ne with
    | .error e => .error e
    | .ok st1 => processEntries resolve nes st1

/-- True when the cluster attribute of the node is set and names a direct
successor of the root. -/
def clusterInPeers (peerList : List String) (node : Node) : Bool :=
  match node.cluster with
  | some c => decide (c ∈ peerList)
  | none => false

/-- Classification loop of _read_nodes_json over the node store: the root
vertex and the members of its cluster stay as they are (the latter marking
the local node when manager or standalone typed), direct successors of the
root are retyped peer, and a manager of a successor cluster is retyped peer
and stored under its cluster id. -/
def scopeLoop (root : String) (peerList : List String) :
    List (String × Node) → List (String × Node) → Option Node →
    List (String × Node) × Option Node
  | [], scope, loc => (scope, loc)
  | (key, node) :: rest, scope, loc =>
    if key = root then
      scopeLoop root peerList rest (insertA scope key node) (some node)
    else if node.cluster = some root then
      scopeLoop root peerList rest (insertA scope key node)
        (if node.type = "manager" ∨ node.type = "standalone" then some node else loc)
    else if key ∈ peerList then
      scopeLoop root peerList rest (insertA scope key { node with type := "peer" }) loc
    else if clusterInPeers peerList node ∧ node.type = "manager" then
      scopeLoop root peerList rest
        (insertA scope (node.cluster.getD "") { node with type := "peer" }) loc
    else scopeLoop root peerList rest scope loc

/-- Root retyping of _read_nodes_json: when the root vertex is a store key
and its node is peer typed, it becomes standalone. -/
def retypeRootStore (root : String) (store : List (String × Node)) :
    List (String × Node) :=
  match lookupA store root with
  | some n =>
    if n.type = "peer" then insertA store root { n with type := "standalone" } else store
  | none => store

/-- Scope-resolution tail of _read_nodes_json (lines 608 to 655): retype the
root, classify every store entry, fail when no vertex classified as the
local node, and validate the retained scope. -/
def resolveScope (localaddrs : List String) (root : String)
    (peerList : List String) (store : List (String × Node)) :
    Except String (List (String × Node) × Node) :=
  let store1 := retypeRootStore root store
  match scopeLoop root peerList store1 [] none with
  | (_, none) => .error "No node configuration for local node found"
  | (scope, some ln) =>
    match _check_nodestore localaddrs scope with
    | .error e => .error e
    | .ok _ => .ok (scope, ln)

/-- Embedding of Configuration._read_nodes_json: check the three top-level
keys, process every node entry, build or look up the head node, add the
connection edges to the overlay, require the overlay to be a connected tree,
and resolve the local scope.  The result is the retained scope, the local
node and the head node. -/
def _read_nodes_json (resolve : String → Option String) (localaddrs : List String)
    (data : JsonData) :
    Except String (List (String × Node) × Node × Node) :=
  match data.nodes, data.connections, data.head with
  | some nodes, some conns, some headE =>
    (match processEntries resolve nodes ({}, [], []) with
     | .error e => .error e
     | .ok (ov, store, counts) =>
       if headE.id.isNone then .error "Misconfigured node.cfg. Head entry invalid"
       else
         let headId :=
           match headE.cluster with
           | some c => if c ≠ "" then c ++ "::" ++ headE.id.getD "" else headE.id.getD ""
           | none => headE.id.getD ""
         match (match lookupA store headId with
                | none => _get_node_json resolve headE headId store counts
                | some h => .ok (h, store, counts)) with
         | .error e => .error e
         | .ok (head, store1, _) =>
           if head.host = "" ∧ head.type = "" then
             .error "Misconfigured node.cfg. Head entry invalid"
           else
             let ov1 := conns.foldl (fun g e => addEdge g e.1 e.2) ov
             if ¬(isConnected ov1 = true ∧ isTree ov1 = true) then
               .error "Misconfigured overlay."
             else
               match getRoot ov1 with
               | .error e => .error e
               | .ok root =>
                 match resolveScope localaddrs root (getSuccessors ov1 root) store1 with
                 | .error e => .error e
                 | .ok (scope, ln) => .ok (scope, ln, head))
  | _, _, _ =>
    .error "Misconfigured node.cfg. One entry out of head, node, connections missing."

/-! ## The peer emitter, makeNodeConfig (install.py lines 283 to 337) -/

/-- Shape of one emitted per-peer document: the head identity of the
emitting local node, the declaration payloads of the subgraph vertices (none
marks a vertex with no recorded payload, where the source raises KeyError),
and the edges internal to the subgraph. -/
structure PeerDoc where
  headId : String
  headRoles : Option String
  headCluster : Option String
  headHost : Option String
  headPort : Option String
  nodes : List (Option JNodeEntry)
  connections : List (String × String)
deriving DecidableEq

/-- Subgraph root the emitter uses for a peer: its cluster id when the peer
carries a cluster attribute, its own name otherwise. -/
def peerRootId (node : Node) : String :=
  match node.cluster with
  | some c => c
  | none => node.name

/-- Embedding of install.makeNodeConfig: build the branch-scoped document
for one peer from the subgraph of its root, with the head describing the
emitting local node. -/
def makeNodeConfig (overlay : BGraph) (localNode : Node) (node : Node) : PeerDoc :=
  let g := getSubgraph overlay (peerRootId node)
  { headId := localNode.name
    headRoles := localNode.roles
    headCluster := localNode.cluster
    headHost := localNode.addr
    headPort := localNode.port
    nodes := g.verts.map (fun v => lookupA overlay.attrs v)
    connections := g.edges }

/-! ## The node query interface, nodes and manager (config.py lines 178 to 232) -/

/-- Node type selected by a query tag, as set by the if/elif chain opening
Configuration.nodes. -/
def nodetypeFor (tag : Option String) : Option String :=
  match tag with
  | some "standalone" => some "standalone"
  | some "manager" => some "manager"
  | some "proxies" => some "proxy"
  | some "workers" => some "worker"
  | some "peers" => some "peer"
  | _ => none

/-- Collection loop of Configuration.nodes over the store values. -/
def nodesCollect (tag : Option String) (nodetype : Option String)
    (localNode : Option Node) : List Node → List Node
  | [] => []
  | n :: ns =>
    let rest := nodesCollect tag nodetype localNode ns
    if nodetype = some n.type then
      if nodetype = some "peer" ∧ n.type = "peer" ∧ localNode = some n then rest
      else n :: rest
    else if tag = some n.name then n :: rest
    else if tag = some "cluster" ∧ n.type ≠ "peer" then n :: rest
    else if tag = some "all" ∨ tag = none then n :: rest
    else rest

/-- Sort order of the query result: by node type, then by node name. -/
def nodeLE (a b : Node) : Bool :=
  decide (a.type < b.type) || (a.type == b.type && !(decide (b.name < a.name)))

/-- Insertion of one element in front of the first element it precedes;
keeps earlier elements of equal rank first, matching the stable Python
sort. -/
def insertLE {α : Type} (le : α → α → Bool) (a : α) : List α → List α
  | [] => [a]
  | b :: bs => if le a b then a :: b :: bs else b :: insertLE le a bs

/-- Stable insertion sort standing in for the Python list sort. -/
def sortLE {α : Type} (le : α → α → Bool) : List α → List α
  | [] => []
  | x :: xs => insertLE le x (sortLE le xs)

/-- Configuration.nodes without its manager-to-standalone fallback. -/
def nodesQueryBase (store : List (String × Node)) (localNode : Option Node)
    (tag : Option String) (expand_all : Bool) : List Node :=
  if (tag = some "all" ∨ tag = some "cluster") ∧ expand_all = false then []
  else
    sortLE nodeLE (nodesCollect tag (nodetypeFor tag) localNode (store.map Prod.snd))

/-- Embedding of Configuration.nodes: collect the matching store values,
sort them, and fall back to the standalone query when a manager query came
back empty. -/
def nodesQuery (store : List (String × Node)) (localNode : Option Node)
    (tag : Option String) (expand_all : Bool) : List Node :=
  let r := nodesQueryBase store localNode tag expand_all
  if r = [] ∧ tag = some "manager" then
    nodesQueryBase store localNode (some "standalone") expand_all
  else r

/-- Embedding of Configuration.manager: first node of the manager query,
else first node of the standalone query, else none. -/
def managerQuery (store : List (String × Node)) (localNode : Option Node) :
    Option Node :=
  match nodesQuery store localNode (some "manager") true with
  | n :: _ => some n
  | [] =>
    match nodesQuery store localNode (some "standalone") true with
    | n :: _ => some n
    | [] => none

/-! ## Derived predicates and claim-side definitions -/

deriving instance DecidableEq for Except

/-- Success payload of an Except value, none on error. -/
def okPart {α : Type} : Except String α → Option α
  | .ok a => some a
  | .error _ => none

/-- True when an Except value is a success. -/
def isOkE {α : Type} : Except String α → Bool
  | .ok _ => true
  | .error _ => false

/-- Well-formedness of one env_vars entry: it splits at an equals sign and
its trimmed key is nonempty. -/
def wfEntry (e : String) : Bool :=
  match pySplitEq1 e with
  | none => false
  | some (k, _) => decide (pyStrip k ≠ "")

/-- Retyping applied to the root node of the hierarchy: a peer at the top
of its own subtree becomes standalone. -/
def retypePeerStandalone (n : Node) : Node :=
  if n.type = "peer" then { n with type := "standalone" } else n

/-- Scope entry written by one store binding during classification, as
performed by the branch chain of the scope loop (branches checked in the
same precedence). -/
def scopeTarget (root : String) (peerList : List String)
    (kv : String × Node) : Option (String × Node) :=
  if kv.1 = root then some (kv.1, kv.2)
  else if kv.2.cluster = some root then some (kv.1, kv.2)
  else if kv.1 ∈ peerList then some (kv.1, { kv.2 with type := "peer" })
  else if clusterInPeers peerList kv.2 ∧ kv.2.type = "manager" then
    some (kv.2.cluster.getD "", { kv.2 with type := "peer" })
  else none

/-- Scope contents as the spec describes them, written over the original
store: the root vertex retyped standalone if it was declared peer, the
vertices of the root cluster, the direct successors of the root retyped
peer, and a successor cluster manager retyped peer and keyed by its cluster
id; everything else is dropped.  The classes are checked in the precedence
of the source loop. -/
def claimScopeTarget (root : String) (peerList : List String)
    (kv : String × Node) : Option (String × Node) :=
  if kv.1 = root then some (kv.1, retypePeerStandalone kv.2)
  else if kv.2.cluster = some root then some (kv.1, kv.2)
  else if kv.1 ∈ peerList then some (kv.1, { kv.2 with type := "peer" })
  else if clusterInPeers peerList kv.2 ∧ kv.2.type = "manager" then
    some (kv.2.cluster.getD "", { kv.2 with type := "peer" })
  else none

/-- Scope described by the spec for a whole store. -/
def claimScope (root : String) (peerList : List String)
    (store : List (String × Node)) : List (String × Node) :=
  store.filterMap (claimScopeTarget root peerList)

/-- True when a store binding classifies as the local node: it is keyed by
the root vertex, or its node belongs to the root cluster with a manager or
standalone type. -/
def classifiesLocal (root : String) (kv : String × Node) : Bool :=
  decide (kv.1 = root) ||
    (decide (kv.2.cluster = some root) &&
      (kv.2.type == "manager" || kv.2.type == "standalone"))

/-- Directed reachability along the overlay edges. -/
def Reaches (g : BGraph) (u v : String) : Prop :=
  Relation.ReflTransGen (fun a b => (a, b) ∈ g.edges) u v

/-! ## Concrete fixtures used by witnesses and counterexamples -/

/-- Host resolution used by the concrete scenarios: the single known host
h1 resolves to 1.2.3.4. -/
def exRes : String → Option String := fun h => if h = "h1" then some "1.2.3.4" else none

/-- Locally recognized addresses of the concrete scenarios. -/
def exLocal : List String := ["1.2.3.4"]

/-- Worker declaration of the replica-expansion scenario of the spec. -/
def exW1 : Node :=
  { name := "w1", type := "worker", host := "h1", lb_procs := "3",
    lb_method := "pf_ring", pin_cpus := "0,1" }

/-- Worker declaration balancing two processes over two interfaces. -/
def exWIface : Node :=
  { name := "w", type := "worker", host := "h1", lb_procs := "2",
    lb_method := "interfaces", lb_interfaces := "eth0,eth1" }

/-- Cluster member entries of the concrete hierarchical documents. -/
def exMgrEntry : JEntry := { id := some "mgr", type := some "manager", host := some "h1" }

/-- Proxy member entry of the concrete hierarchical documents. -/
def exPxEntry : JEntry := { id := some "px", type := some "proxy", host := some "h1" }

/-- Load-balanced worker member entry named w. -/
def exWEntry : JEntry :=
  { id := some "w", type := some "worker", host := some "h1",
    lb_procs := some "2", lb_method := some "pf_ring" }

/-- Ordinary worker member entry named w-1, colliding with the first
replica of w. -/
def exW1Entry : JEntry := { id := some "w-1", type := some "worker", host := some "h1" }

/-- Worker member entry whose id contains the reserved separator. -/
def exABEntry : JEntry := { id := some "a::b", type := some "worker", host := some "h1" }

/-- Top-level entry of the cluster named C. -/
def exClusterEntry : JEntry := { id := some "C", type := some "cluster" }

/-- Head entry naming the manager member of cluster C. -/
def exHeadEntry : JEntry := { id := some "mgr", cluster := some "C" }

/-- Hierarchical document whose cluster declares a member named after a
replica of its load-balanced worker. -/
def c3Data : JsonData :=
  { nodes := some [{ entry := exClusterEntry
                     members := [exMgrEntry, exPxEntry, exWEntry, exW1Entry] }]
    connections := some []
    head := some exHeadEntry }

/-- Hierarchical document whose cluster declares a member id containing the
reserved separator. -/
def c8Data : JsonData :=
  { nodes := some [{ entry := exClusterEntry
                     members := [exMgrEntry, exPxEntry, exABEntry] }]
    connections := some []
    head := some exHeadEntry }

/-- Hierarchical document in which both the root vertex and a standalone
member of the root cluster classify as the local node. -/
def c5Data : JsonData :=
  { nodes := some [
      { entry := { id := some "R", type := some "peer", host := some "h1" } },
      { entry := { id := some "X", type := some "standalone", host := some "h1", cluster := some "R" } },
      { entry := { id := some "S", type := some "worker", host := some "h1" } }]
    connections := some [("R", "S"), ("R", "X")]
    head := some { id := some "R" } }

/-- Store of the scope-resolution scenario in which a direct successor of
the root coexists with a manager of that successor cluster. -/
def c6Store : List (String × Node) :=
  [("R", { name := "R", type := "standalone", host := "h1", addr := some "1.2.3.4" }),
   ("S", { name := "S", type := "worker", host := "h1", addr := some "1.2.3.4" }),
   ("M", { name := "M", type := "manager", host := "h1", addr := some "1.2.3.4", cluster := some "S" })]

/-- Overlay of that scenario: one edge from the root R to its successor S. -/
def c6Overlay : BGraph := addEdge {} "R" "S"

/-- Manager node resolving to a non-local address. -/
def exMgrRemote1 : Node := { name := "m1", type := "manager", host := "h1", addr := some "9.9.9.9" }

/-- Second manager node resolving to a non-local address. -/
def exMgrRemote2 : Node := { name := "m2", type := "manager", host := "h1", addr := some "9.9.9.9" }

/-- Proxy node of the two-manager scenario. -/
def exProxy : Node := { name := "p", type := "proxy", host := "h1", addr := some "1.2.3.4" }

/-- Store declaring two managers, both on non-local addresses. -/
def c9Store : List (String × Node) :=
  [("m1", exMgrRemote1), ("m2", exMgrRemote2), ("p", exProxy)]

/-- Standalone node of the query-fallback scenario. -/
def exStandalone : Node := { name := "sA", type := "standalone", host := "h1", addr := some "1.2.3.4" }

/-- Peer node whose name is literally the manager query tag. -/
def exPeerNamedManager : Node := { name := "manager", type := "peer", host := "h1", addr := some "1.2.3.4" }

/-- Store with no manager-typed node, one standalone node, and a peer that
happens to be named manager. -/
def c10Store : List (String × Node) :=
  [("sA", exStandalone), ("manager", exPeerNamedManager)]

/-- Flat sections of a minimal valid cluster: one manager and one proxy. -/
def exFlatSections : List (String × List (String × String)) :=
  [("m1", [("type", "manager"), ("host", "h1")]),
   ("p1", [("type", "proxy"), ("host", "h1")])]

/-- Store produced by the flat load of exFlatSections. -/
def exFlatStore : List (String × Node) :=
  [("m1", { name := "m1", type := "manager", host := "h1", addr := some "1.2.3.4", count := 1 }),
   ("p1", { name := "p1", type := "proxy", host := "h1", addr := some "1.2.3.4", count := 1 })]

/-- Standalone root node of the single-node scope scenario. -/
def exRootNode : Node := { name := "R", type := "standalone", host := "h1", addr := some "1.2.3.4" }

/-- Store holding only the standalone root node. -/
def c6wStore : List (String × Node) := [("R", exRootNode)]

/-- Node built for the manager member of the cluster named D. -/
def c8wNode : Node :=
  { name := "D::mgr", type := "manager", host := "h1", addr := some "1.2.3.4",
    cluster := some "D", count := 1 }

/-- Result of processing the single manager member of cluster D. -/
def c8wResult : Option Node × List (String × Node) × List (String × Nat) :=
  (some c8wNode, [("D::mgr", c8wNode)], [("manager", 1)])

/-- Ordinary (non-cluster) entry whose id contains the reserved separator. -/
def c8wOrdinaryEntry : JNodeEntry := { entry := { id := some "x::y", type := some "worker" } }

/-- Base node returned for the two-interface worker: it is renamed w-1 and
assigned the last declared interface. -/
def c1wN1 : Node :=
  { name := "w-1", type := "worker", host := "h1", addr := some "1.2.3.4",
    lb_procs := "2", lb_method := "interfaces", lb_interfaces := "eth0,eth1",
    interface := "eth1", count := 1 }

/-- Replica node of the two-interface worker, assigned the first declared
interface. -/
def c1wRep : Node :=
  { name := "w-2", type := "worker", host := "h1", addr := some "1.2.3.4",
    lb_procs := "2", lb_method := "interfaces", lb_interfaces := "eth0,eth1",
    interface := "eth0", count := 2 }

/-- Store produced by expanding the two-interface worker. -/
def c1wStore1 : List (String × Node) := [("w-2", c1wRep)]

/-- Counters after expanding the two-interface worker. -/
def c1wCounts1 : List (String × Nat) := [("worker", 2)]

/-! # Theorems -/

/-- C2: expanding the worker w1 declared with lb_procs 3, lb_method pf_ring
and pin_cpus 0,1 yields exactly the nodes w1-1, w1-2, w1-3 with pin values
0, 1, 0 in replica order and the strictly increasing counts 1, 2, 3 drawn
from the shared per-type counter. -/
theorem c2_replica_expansion :
    (okPart (_check_node exRes exW1 [] [])).map
      (fun r => ((r.1.name, r.1.pin_cpu, r.1.count),
        r.2.1.map (fun p => (p.1, p.2.name, p.2.pin_cpu, p.2.count)), r.2.2)) =
      some ((("w1-1", some 0, 1)),
        [("w1-2", "w1-2", some 1, 2), ("w1-3", "w1-3", some 0, 3)],
        [("worker", 3)]) ∧ (1 : Nat) < 2 ∧ (2 : Nat) < 3 := by
  refine ⟨by rfl, by decide, by decide⟩

/-- C1 counterexample: for the worker w with lb_procs 2 and declared
interface list eth0,eth1, the first replica w-1 is assigned eth1, the last
declared interface, not the first one eth0 the claim requires; the second
replica gets eth0. -/
theorem c1_counterexample :
    (okPart (_check_node exRes exWIface [] [])).map
      (fun r => (r.1.name, r.1.interface, r.2.1.map (fun p => (p.1, p.2.interface)))) =
      some ("w-1", "eth1", [("w-2", "eth0")]) ∧ "eth1" ≠ "eth0" := by
  decide

/-- C3 counterexample: the hierarchical load of a document whose cluster
declares a load-balanced worker w and an ordinary member named w-1 succeeds
and returns a scope holding two distinct entries that both carry the node
name C::w-1; the duplicate name is silently accepted, not fatal. -/
theorem c3_counterexample :
    (okPart (_read_nodes_json exRes exLocal c3Data)).map
      (fun r => r.1.map (fun p => p.2.name)) =
      some ["C::mgr", "C::px", "C::w-1", "C::w-1"] ∧
    ¬ (["C::mgr", "C::px", "C::w-1", "C::w-1"] : List String).Nodup := by
  refine ⟨by decide, by decide⟩

/-- C4 counterexample: the entry A=B=C contains two equals signs, yet
parsing succeeds by splitting at the first one, refuting the requirement
that each entry contain exactly one equals sign. -/
theorem c4_counterexample :
    _get_env_var_dict "A=B=C" = .ok [("A", "B=C")] ∧
    (pySplitChar '=' "A=B=C").length = 3 := by
  decide

/-- C5 counterexample: the hierarchical load of a document in which two
vertices classify as the local node (the root R and the standalone cluster
member X) succeeds instead of failing; the last classified vertex X is
silently kept as the local node. -/
theorem c5_counterexample :
    (okPart (_read_nodes_json exRes exLocal c5Data)).map
      (fun r => (r.1.countP (classifiesLocal "R"), r.2.1.name)) =
      some (2, "X") := by
  decide

/-- C6 counterexample: with the root R, its direct successor S present in
the store, and a manager M of cluster S, the successor vertex S is absent
from the retained scope: the manager overwrites the binding at key S, so
the scope holds only the nodes named R and M although the claim requires
the successor vertex retyped peer to be retained as well. -/
theorem c6_counterexample :
    ("S" ∈ getSuccessors c6Overlay "R") ∧
    (okPart (resolveScope exLocal "R" (getSuccessors c6Overlay "R") c6Store)).map
      (fun r => r.1.map (fun p => (p.1, p.2.name))) =
      some [("R", "R"), ("S", "M")] := by
  refine ⟨by decide, by decide⟩

/-- C8 counterexample: a cluster member with id a::b, which contains the
reserved separator, does not make the load fail; the document loads
successfully and the member is stored under the effective id C::a::b. -/
theorem c8_counterexample :
    containsDoubleColon "a::b" = true ∧
    (okPart (_read_nodes_json exRes exLocal c8Data)).map
      (fun r => r.1.map (fun p => (p.1, p.2.cluster))) =
      some [("C::mgr", some "C"), ("C::px", some "C"), ("C::a::b", some "C")] := by
  refine ⟨by decide, by decide⟩

/-- C9 counterexample: a store with two manager nodes whose addresses are
not locally recognized fails with the manager-locality error, not with the
only-one-manager error the claim requires for every such store. -/
theorem c9_counterexample :
    ((c9Store.map Prod.snd).countP (fun n => n.type == "manager") = 2) ∧
    _check_nodestore exLocal c9Store = .error "Must run broctl only on manager node" ∧
    "Must run broctl only on manager node" ≠ "Only one manager can be defined" := by
  refine ⟨by decide, by decide, by decide⟩

/-- C10 counterexample: a validated store with no manager-typed node and a
standalone node, but also containing a peer literally named manager, makes
the manager query return that peer rather than the standalone node, and
manager() returns the peer. -/
theorem c10_counterexample :
    _check_nodestore exLocal c10Store = .ok () ∧
    (c10Store.map Prod.snd).countP (fun n => n.type == "manager") = 0 ∧
    exStandalone ∈ c10Store.map Prod.snd ∧ exStandalone.type = "standalone" ∧
    (nodesQuery c10Store none (some "manager") true).map Node.name = ["manager"] ∧
    managerQuery c10Store none = some exPeerNamedManager ∧
    exPeerNamedManager.type = "peer" := by
  refine ⟨by decide, by decide, by decide, by decide, by decide, by decide, by decide⟩

/-! ## Helper lemmas on the dictionary embedding -/

theorem lookupA_eq_none_iff {α : Type} (l : List (String × α)) (k : String) :
    lookupA l k = none ↔ k ∉ l.map Prod.fst := by
  induction l with
  | nil => simp [lookupA]
  | cons p rest ih =>
    by_cases h : p.1 = k
    · simp [lookupA, h]
    · simp only [lookupA, if_neg h, List.map_cons, List.mem_cons, ih]
      constructor
      · rintro hn (hk | hk)
        · exact h hk.symm
        · exact hn hk
      · intro hn hk
        exact hn (Or.inr hk)

theorem lookupA_append_left {α : Type} (l1 l2 : List (String × α)) (k : String)
    (v : α) (h : lookupA l1 k = some v) : lookupA (l1 ++ l2) k = some v := by
  induction l1 with
  | nil => simp [lookupA] at h
  | cons p rest ih =>
    by_cases hp : p.1 = k
    · simp only [lookupA, if_pos hp] at h ⊢
      exact h
    · simp only [lookupA, if_neg hp] at h ⊢
      exact ih h

theorem lookupA_append_right {α : Type} (l1 l2 : List (String × α)) (k : String)
    (h : lookupA l1 k = none) : lookupA (l1 ++ l2) k = lookupA l2 k := by
  induction l1 with
  | nil => simp
  | cons p rest ih =>
    by_cases hp : p.1 = k
    · simp [lookupA, if_pos hp] at h
    · simp only [lookupA, if_neg hp] at h ⊢
      exact ih h

theorem lookupA_insertA_self {α : Type} (l : List (String × α)) (k : String) (v : α) :
    lookupA (insertA l k v) k = some v := by
  induction l with
  | nil => simp [insertA, lookupA]
  | cons p rest ih =>
    by_cases hp : p.1 = k
    · simp [insertA, if_pos hp, lookupA]
    · simp [insertA, if_neg hp, lookupA, hp, ih]

theorem insertA_eq_append {α : Type} (l : List (String × α)) (k : String) (v : α)
    (h : k ∉ l.map Prod.fst) : insertA l k v = l ++ [(k, v)] := by
  induction l with
  | nil => simp [insertA]
  | cons p rest ih =>
    simp only [List.map_cons, List.mem_cons] at h
    push_neg at h
    have hne : p.1 ≠ k := fun hp => h.1 hp.symm
    obtain ⟨p1, p2⟩ := p
    simp only [insertA, if_neg hne, List.cons_append]
    rw [ih h.2]

theorem lookupA_of_mem_nodup {α : Type} (l : List (String × α)) (p : String × α)
    (hmem : p ∈ l) (hnodup : (l.map Prod.fst).Nodup) : lookupA l p.1 = some p.2 := by
  induction l with
  | nil => cases hmem
  | cons q rest ih =>
    simp only [List.map_cons, List.nodup_cons] at hnodup
    rcases List.mem_cons.mp hmem with h | h
    · subst h
      simp [lookupA]
    · by_cases hq : q.1 = p.1
      · exfalso
        exact hnodup.1 (hq ▸ List.mem_map_of_mem Prod.fst h)
      · simp only [lookupA, if_neg hq]
        exact ih h hnodup.2

/-! ## C4: env_vars parsing -/

theorem envLoop_ok_iff (l : List String) :
    ∀ acc, isOkE (envLoop l acc) = true ↔ (∀ e ∈ l, wfEntry e = true) := by
  induction l with
  | nil => intro acc; simp [envLoop, isOkE]
  | cons kv rest ih =>
    intro acc
    cases h : pySplitEq1 kv with
    | none =>
      simp [envLoop, h, isOkE, wfEntry]
    | some p =>
      obtain ⟨k, v⟩ := p
      by_cases hk : pyStrip k = ""
      · simp [envLoop, h, hk, isOkE, wfEntry]
      · simp [envLoop, h, hk, ih, wfEntry]

/-- C4 (amended): parsing of the env_vars string succeeds exactly when, once
outer quotes are stripped and unless the remainder is empty, every
comma-separated entry contains at least one equals sign (the split happens
at the first one, so further equals signs stay in the value) with a key
that is nonempty after trimming; and the entry FOO with no separator fails
with the fatal error naming the missing separator. -/
theorem c4_env_parse :
    (∀ text, isOkE (_get_env_var_dict text) = true ↔
      (stripOuterQuotes text ≠ "" →
        ∀ e ∈ pySplitChar ',' (stripOuterQuotes text), wfEntry e = true)) ∧
    _get_env_var_dict "FOO" = .error "missing = in env_vars" := by
  constructor
  · intro text
    by_cases ht : stripOuterQuotes text = ""
    · simp [_get_env_var_dict, ht, isOkE]
    · simp [_get_env_var_dict, ht, envLoop_ok_iff]
  · decide

/-- C4 witness: the amended theorem applied to the concrete assignment K=1
and to the malformed entry FOO. -/
theorem c4_env_parse_witness :
    isOkE (_get_env_var_dict "K=1") = true ∧
    _get_env_var_dict "FOO" = .error "missing = in env_vars" :=
  ⟨(c4_env_parse.1 "K=1").mpr (by decide), c4_env_parse.2⟩

/-! ## C9: manager cardinality -/

theorem checkStoreLoop_cons_nonmanager (la : List String) (n : Node)
    (rest : List Node) (fl : StoreFlags) (hn : n.type ≠ "manager") :
    ∃ fl', checkStoreLoop la (n :: rest) fl = checkStoreLoop la rest fl' ∧
      fl'.manager = fl.manager := by
  by_cases hp : n.type = "proxy"
  · exact ⟨{ fl with proxy := true }, by simp [checkStoreLoop, hn, hp], rfl⟩
  · by_cases hs : n.type = "standalone"
    · exact ⟨{ fl with standalone := true }, by simp [checkStoreLoop, hn, hp, hs], rfl⟩
    · by_cases hpe : n.type = "peer"
      · exact ⟨{ fl with peer := true }, by simp [checkStoreLoop, hn, hp, hs, hpe], rfl⟩
      · exact ⟨fl, by simp [checkStoreLoop, hn, hp, hs, hpe], rfl⟩

theorem checkStoreLoop_second_manager (la : List String) :
    ∀ (ns : List Node) (fl : StoreFlags), fl.manager = true →
    (∃ n ∈ ns, n.type = "manager") →
    checkStoreLoop la ns fl = .error "Only one manager can be defined" := by
  intro ns
  induction ns with
  | nil => intro fl _ h; simp at h
  | cons n rest ih =>
    intro fl hfl h
    by_cases hn : n.type = "manager"
    · simp [checkStoreLoop, hn, hfl]
    · obtain ⟨m, hm, hmty⟩ := h
      rcases List.mem_cons.mp hm with h1 | h1
      · exact absurd (h1 ▸ hmty) hn
      · obtain ⟨fl', hstep, hmgr⟩ := checkStoreLoop_cons_nonmanager la n rest fl hn
        rw [hstep]
        exact ih fl' (hmgr.trans hfl) ⟨m, h1, hmty⟩

theorem checkStoreLoop_two_managers (la : List String) :
    ∀ (ns : List Node) (fl : StoreFlags), fl.manager = false →
    2 ≤ ns.countP (fun n => n.type == "manager") →
    (∀ n ∈ ns, n.type = "manager" → n.addr.getD "" ∈ la) →
    checkStoreLoop la ns fl = .error "Only one manager can be defined" := by
  intro ns
  induction ns with
  | nil =>
    intro fl _ h
    rw [List.countP_nil] at h
    omega
  | cons n rest ih =>
    intro fl hfl h2 hloc
    rw [List.countP_cons] at h2
    by_cases hn : n.type = "manager"
    · have hla : n.addr.getD "" ∈ la := hloc n (List.mem_cons_self n rest) hn
      have hcnt : 1 ≤ rest.countP (fun n => n.type == "manager") := by
        have hif : (if (n.type == "manager") = true then 1 else 0) = 1 := by simp [hn]
        rw [hif] at h2
        omega
      have hrest : ∃ m ∈ rest, m.type = "manager" := by
        have hpos : 0 < rest.countP (fun n => n.type == "manager") := by omega
        obtain ⟨m, hm, hmty⟩ := List.countP_pos_iff.mp hpos
        exact ⟨m, hm, by simpa using hmty⟩
      rw [show checkStoreLoop la (n :: rest) fl =
          checkStoreLoop la rest { fl with manager := true } by
        simp [checkStoreLoop, hn, hfl, hla]]
      exact checkStoreLoop_second_manager la rest { fl with manager := true } rfl hrest
    · have h2r : 2 ≤ rest.countP (fun n => n.type == "manager") := by
        have hif : (if (n.type == "manager") = true then 1 else 0) = 0 := by simp [hn]
        rw [hif] at h2
        omega
      have hlocr : ∀ m ∈ rest, m.type = "manager" → m.addr.getD "" ∈ la :=
        fun m hm => hloc m (List.mem_cons_of_mem n hm)
      obtain ⟨fl', hstep, hmgr⟩ := checkStoreLoop_cons_nonmanager la n rest fl hn
      rw [hstep]
      exact ih fl' (hmgr.trans hfl) h2r hlocr

/-- C9 (amended): a node store declaring two or more managers always fails
validation; the error is the only-one-manager error provided every manager
in the store resolves to a locally recognized address (otherwise the
manager-locality check, which runs on the first manager encountered, can
fail first with the locality error instead). -/
theorem c9_two_managers (la : List String) (store : List (String × Node))
    (h2 : 2 ≤ (store.map Prod.snd).countP (fun n => n.type == "manager"))
    (hloc : ∀ n ∈ store.map Prod.snd, n.type = "manager" → n.addr.getD "" ∈ la) :
    _check_nodestore la store = .error "Only one manager can be defined" := by
  have hne : store ≠ [] := by
    intro h
    subst h
    rw [List.map_nil, List.countP_nil] at h2
    omega
  simp only [_check_nodestore, if_neg hne]
  rw [checkStoreLoop_two_managers la (store.map Prod.snd) {} rfl h2 hloc]

/-- C9 witness: the amended theorem applied to a concrete store with two
locally resolving managers. -/
theorem c9_two_managers_witness :
    _check_nodestore exLocal
      [("m1", { exMgrRemote1 with addr := some "1.2.3.4" }),
       ("m2", { exMgrRemote2 with addr := some "1.2.3.4" })] =
      .error "Only one manager can be defined" :=
  c9_two_managers exLocal _ (by decide) (by decide)

/-! ## C5: local-node classification -/

theorem scopeLoop_no_local (root : String) (peerList : List String) :
    ∀ (l : List (String × Node)) (scope : List (String × Node)),
    (∀ p ∈ l, classifiesLocal root p = false) →
    (scopeLoop root peerList l scope none).2 = none := by
  intro l
  induction l with
  | nil => intro scope _; simp [scopeLoop]
  | cons kv rest ih =>
    intro scope h
    obtain ⟨key, node⟩ := kv
    have hhead := h (key, node) (List.mem_cons_self _ _)
    simp only [classifiesLocal, Bool.or_eq_false_iff, Bool.and_eq_false_iff,
      decide_eq_false_iff_not] at hhead
    have hkey : ¬ key = root := hhead.1
    have htail : ∀ p ∈ rest, classifiesLocal root p = false :=
      fun p hp => h p (List.mem_cons_of_mem _ hp)
    by_cases hc : node.cluster = some root
    · have hty : ¬ (node.type = "manager" ∨ node.type = "standalone") := by
        rcases hhead.2 with h1 | h1
        · exact absurd hc (by simpa using h1)
        · intro hcon
          rcases hcon with h2 | h2
          · exact absurd h1.1 (by simp [h2])
          · exact absurd h1.2 (by simp [h2])
      simp only [scopeLoop, if_neg hkey, if_pos hc, if_neg hty]
      exact ih _ htail
    · by_cases hpl : key ∈ peerList
      · simp only [scopeLoop, if_neg hkey, if_neg hc, if_pos hpl]
        exact ih _ htail
      · by_cases hcm : clusterInPeers peerList node ∧ node.type = "manager"
        · simp only [scopeLoop, if_neg hkey, if_neg hc, if_neg hpl, if_pos hcm]
          exact ih _ htail
        · simp only [scopeLoop, if_neg hkey, if_neg hc, if_neg hpl, if_neg hcm]
          exact ih _ htail

/-- C5 (amended): during hierarchical scope resolution the load fails with
the fatal no-local-node error whenever zero store entries classify as the
local node; when more than one entry classifies, however, no error is
raised and the last classified vertex silently becomes the local node. -/
theorem c5_local_required (la : List String) (root : String)
    (peerList : List String) (store : List (String × Node))
    (h : ∀ p ∈ store, classifiesLocal root p = false) :
    resolveScope la root peerList store =
      .error "No node configuration for local node found" := by
  have hkeys : ∀ p ∈ store, p.1 ≠ root := by
    intro p hp
    have := h p hp
    simp only [classifiesLocal, Bool.or_eq_false_iff, decide_eq_false_iff_not] at this
    exact this.1
  have hlook : lookupA store root = none := by
    rw [lookupA_eq_none_iff]
    intro hmem
    obtain ⟨p, hp, hp1⟩ := List.mem_map.mp hmem
    exact hkeys p hp hp1
  have hretype : retypeRootStore root store = store := by
    simp [retypeRootStore, hlook]
  simp only [resolveScope, hretype]
  have := scopeLoop_no_local root peerList store [] h
  rcases hp : scopeLoop root peerList store [] none with ⟨sc, loc⟩
  rw [hp] at this
  simp only at this
  subst this
  simp

/-- C5 witness: the amended theorem applied to a store whose single proxy
entry does not classify as local for root R. -/
theorem c5_local_required_witness :
    resolveScope exLocal "R" [] [("A", exProxy)] =
      .error "No node configuration for local node found" :=
  c5_local_required exLocal "R" [] [("A", exProxy)] (by decide)

/-! ## C10: manager query fallback -/

theorem nodesCollect_filter (t ty : String) (ln : Option Node)
    (hty : ty ≠ "peer") (ht1 : t ≠ "cluster") (ht2 : t ≠ "all") :
    ∀ l : List Node, nodesCollect (some t) (some ty) ln l =
      l.filter (fun n => n.type == ty || n.name == t) := by
  intro l
  induction l with
  | nil => simp [nodesCollect]
  | cons n rest ih =>
    by_cases h1 : ty = n.type
    · have hskip : ¬ (some ty = some "peer" ∧ n.type = "peer" ∧ ln = some n) := by
        rintro ⟨hp, _, _⟩
        exact hty (Option.some.inj hp)
      simp only [nodesCollect, if_pos (congrArg some h1), if_neg hskip, ih]
      rw [List.filter_cons_of_pos (by simp [h1.symm])]
    · have hne1 : ¬ (some ty = some n.type) := fun hc => h1 (Option.some.inj hc)
      by_cases h2 : t = n.name
      · simp only [nodesCollect, if_neg hne1, if_pos (congrArg some h2), ih]
        rw [List.filter_cons_of_pos (by simp [h2.symm])]
      · have hne2 : ¬ (some t = some n.name) := fun hc => h2 (Option.some.inj hc)
        have hne3 : ¬ (some t = some "cluster" ∧ n.type ≠ "peer") := by
          rintro ⟨hc, _⟩
          exact ht1 (Option.some.inj hc)
        have hne4 : ¬ (some t = some "all" ∨ (some t : Option String) = none) := by
          rintro (hc | hc)
          · exact ht2 (Option.some.inj hc)
          · cases hc
        have hpred : ¬ ((fun n : Node => n.type == ty || n.name == t) n = true) := by
          simp only [Bool.or_eq_true, beq_iff_eq]
          rintro (hc | hc)
          · exact h1 hc.symm
          · exact h2 hc.symm
        calc nodesCollect (some t) (some ty) ln (n :: rest)
            = nodesCollect (some t) (some ty) ln rest := by
              simp only [nodesCollect, if_neg hne1, if_neg hne2, if_neg hne3, if_neg hne4]
          _ = List.filter (fun n => n.type == ty || n.name == t) rest := ih
          _ = List.filter (fun n => n.type == ty || n.name == t) (n :: rest) :=
              (@List.filter_cons_of_neg Node (fun n => n.type == ty || n.name == t)
                n rest hpred).symm

/-- C10 (amended): for every validated store that contains no manager-typed
node, provided no node is literally named manager and every node named
standalone is standalone typed (the query loop also matches nodes whose
name equals the tag), the manager query returns the standalone-typed nodes
sorted by type and name, and manager() returns the first of them (none when
there is no standalone node). -/
theorem c10_manager_fallback (la : List String) (store : List (String × Node))
    (ln : Option Node)
    (Hok : _check_nodestore la store = .ok ())
    (Hnomgr : ∀ n ∈ store.map Prod.snd, n.type ≠ "manager")
    (Hname1 : ∀ n ∈ store.map Prod.snd, n.name ≠ "manager")
    (Hname2 : ∀ n ∈ store.map Prod.snd, n.name = "standalone" → n.type = "standalone") :
    nodesQuery store ln (some "manager") true =
      sortLE nodeLE ((store.map Prod.snd).filter (fun n => n.type == "standalone")) ∧
    managerQuery store ln =
      (sortLE nodeLE ((store.map Prod.snd).filter (fun n => n.type == "standalone"))).head? := by
  have hearly : ∀ tg : String, tg ≠ "all" → tg ≠ "cluster" →
      ¬ (((some tg : Option String) = some "all" ∨ (some tg : Option String) = some "cluster") ∧
        (true : Bool) = false) := by
    rintro tg h1 h2 ⟨_, hc⟩
    cases hc
  have hmgr_base : nodesQueryBase store ln (some "manager") true = [] := by
    simp only [nodesQueryBase, if_neg (hearly "manager" (by decide) (by decide))]
    have : nodetypeFor (some "manager") = some "manager" := rfl
    rw [this, nodesCollect_filter "manager" "manager" ln (by decide) (by decide) (by decide)]
    have hfil : (store.map Prod.snd).filter
        (fun n => n.type == "manager" || n.name == "manager") = [] := by
      rw [List.filter_eq_nil_iff]
      intro n hn
      simp [Hnomgr n hn, Hname1 n hn]
    rw [hfil]
    rfl
  have hstand_base : nodesQueryBase store ln (some "standalone") true =
      sortLE nodeLE ((store.map Prod.snd).filter (fun n => n.type == "standalone")) := by
    simp only [nodesQueryBase, if_neg (hearly "standalone" (by decide) (by decide))]
    have : nodetypeFor (some "standalone") = some "standalone" := rfl
    rw [this, nodesCollect_filter "standalone" "standalone" ln (by decide) (by decide) (by decide)]
    have hfil : (store.map Prod.snd).filter
        (fun n => n.type == "standalone" || n.name == "standalone") =
        (store.map Prod.snd).filter (fun n => n.type == "standalone") := by
      apply List.filter_congr
      intro n hn
      by_cases hnm : n.name = "standalone"
      · simp [Hname2 n hn hnm, hnm]
      · simp [hnm]
    rw [hfil]
  have hq : nodesQuery store ln (some "manager") true =
      sortLE nodeLE ((store.map Prod.snd).filter (fun n => n.type == "standalone")) := by
    simp only [nodesQuery, hmgr_base]
    simp [hstand_base]
  refine ⟨hq, ?_⟩
  have hqs : nodesQuery store ln (some "standalone") true =
      sortLE nodeLE ((store.map Prod.snd).filter (fun n => n.type == "standalone")) := by
    simp only [nodesQuery, hstand_base]
    split
    · rename_i hcon
      exact absurd hcon.2 (by decide)
    · rfl
  cases hS : sortLE nodeLE ((store.map Prod.snd).filter (fun n => n.type == "standalone")) with
  | nil =>
    simp only [managerQuery, hq, hS]
    rw [hqs, hS]
    rfl
  | cons a as =>
    simp only [managerQuery, hq, hS]
    rfl

/-- C10 witness: the amended theorem applied to the validated store holding
the single standalone node sA. -/
theorem c10_manager_fallback_witness :
    nodesQuery [("sA", exStandalone)] none (some "manager") true =
      sortLE nodeLE (([("sA", exStandalone)].map Prod.snd).filter
        (fun n => n.type == "standalone")) ∧
    managerQuery [("sA", exStandalone)] none =
      (sortLE nodeLE (([("sA", exStandalone)].map Prod.snd).filter
        (fun n => n.type == "standalone"))).head? :=
  c10_manager_fallback exLocal [("sA", exStandalone)] none (by decide) (by decide)
    (by decide) (by decide)

/-! ## C3: uniqueness of node names -/

theorem expandLoop_wf (origname : String) (base : Node) (pins : List Int) :
    ∀ (nums : List Nat) (netifs : List String) (store : List (String × Node))
      (counts : List (String × Nat)) (store1 : List (String × Node))
      (counts1 : List (String × Nat)) (rest1 : List String),
    expandLoop origname base pins nums netifs store counts = .ok (store1, counts1, rest1) →
    (store.map Prod.fst).Nodup → (∀ p ∈ store, p.2.name = p.1) →
    (store1.map Prod.fst).Nodup ∧ (∀ p ∈ store1, p.2.name = p.1) := by
  intro nums
  induction nums with
  | nil =>
    intro netifs store counts store1 counts1 rest1 h h1 h2
    simp only [expandLoop, Except.ok.injEq, Prod.mk.injEq] at h
    obtain ⟨hs, _, _⟩ := h
    subst hs
    exact ⟨h1, h2⟩
  | cons num nums ih =>
    intro netifs store counts store1 counts1 rest1 h h1 h2
    simp only [expandLoop] at h
    split at h
    · exact Except.noConfusion h
    · rename_i hfresh
      have hnotmem : (origname ++ "-" ++ Nat.repr num) ∉ store.map Prod.fst := by
        rw [← lookupA_eq_none_iff]
        exact Option.not_isSome_iff_eq_none.mp hfresh
      split at h
      · split at h
        · rename_i x rest hpop
          refine ih _ _ _ _ _ _ h ?_ ?_
          · rw [List.map_append, List.nodup_append]
            refine ⟨h1, by simp, ?_⟩
            intro a ha hb
            simp at hb
            subst hb
            exact hnotmem ha
          · intro p hp
            rcases List.mem_append.mp hp with hp | hp
            · exact h2 p hp
            · simp at hp
              subst hp
              cases pins <;> rfl
        · exact Except.noConfusion h
      · refine ih _ _ _ _ _ _ h ?_ ?_
        · rw [List.map_append, List.nodup_append]
          refine ⟨h1, by simp, ?_⟩
          intro a ha hb
          simp at hb
          subst hb
          exact hnotmem ha
        · intro p hp
          rcases List.mem_append.mp hp with hp | hp
          · exact h2 p hp
          · simp at hp
            subst hp
            cases pins <;> rfl

theorem checkNodeLb_wf (node : Node) (numprocs : Nat) (pins : List Int)
    (store : List (String × Node)) (counts : List (String × Nat))
    (n1 : Node) (store1 : List (String × Node)) (counts1 : List (String × Nat))
    (h : checkNodeLb node numprocs pins store counts = .ok (n1, store1, counts1))
    (h1 : (store.map Prod.fst).Nodup) (h2 : ∀ p ∈ store, p.2.name = p.1) :
    (store1.map Prod.fst).Nodup ∧ (∀ p ∈ store1, p.2.name = p.1) := by
  simp only [checkNodeLb] at h
  split at h
  · exact Except.noConfusion h
  · split at h
    · exact Except.noConfusion h
    · split at h
      · exact Except.noConfusion h
      · split at h
        · exact Except.noConfusion h
        · rename_i hloop
          simp only [Except.ok.injEq, Prod.mk.injEq] at h
          obtain ⟨_, hs, _⟩ := h
          subst hs
          exact expandLoop_wf _ _ _ _ _ _ _ _ _ _ hloop h1 h2

theorem _check_node_wf (resolve : String → Option String) (node : Node)
    (store : List (String × Node)) (counts : List (String × Nat))
    (n1 : Node) (store1 : List (String × Node)) (counts1 : List (String × Nat))
    (h : _check_node resolve node store counts = .ok (n1, store1, counts1))
    (h1 : (store.map Prod.fst).Nodup) (h2 : ∀ p ∈ store, p.2.name = p.1) :
    (store1.map Prod.fst).Nodup ∧ (∀ p ∈ store1, p.2.name = p.1) := by
  simp only [_check_node] at h
  split at h
  · exact Except.noConfusion h
  · split at h
    · exact Except.noConfusion h
    · split at h
      · exact Except.noConfusion h
      · split at h
        · exact Except.noConfusion h
        · split at h
          · exact Except.noConfusion h
          · split at h
            · exact Except.noConfusion h
            · split at h
              · exact Except.noConfusion h
              · split at h
                · simp only [Except.ok.injEq, Prod.mk.injEq] at h
                  obtain ⟨_, hs, _⟩ := h
                  subst hs
                  exact ⟨h1, h2⟩
                · exact checkNodeLb_wf _ _ _ _ _ _ _ _ h h1 h2

theorem readNodesLoop_wf (resolve : String → Option String) :
    ∀ (sections : List (String × List (String × String)))
      (store : List (String × Node)) (counts : List (String × Nat))
      (store1 : List (String × Node)),
    readNodesLoop resolve sections store counts = .ok store1 →
    (store.map Prod.fst).Nodup → (∀ p ∈ store, p.2.name = p.1) →
    (store1.map Prod.fst).Nodup ∧ (∀ p ∈ store1, p.2.name = p.1) := by
  intro sections
  induction sections with
  | nil =>
    intro store counts store1 h h1 h2
    simp only [readNodesLoop, Except.ok.injEq] at h
    subst h
    exact ⟨h1, h2⟩
  | cons sec rest ih =>
    intro store counts store1 h h1 h2
    obtain ⟨secname, items⟩ := sec
    simp only [readNodesLoop] at h
    split at h
    · exact Except.noConfusion h
    · rename_i node1 store2 counts2 hchk
      split at h
      · exact Except.noConfusion h
      · rename_i hfresh
        have hwf2 := _check_node_wf resolve _ store counts node1 store2 counts2 hchk h1 h2
        have hnotmem : node1.name ∉ store2.map Prod.fst := by
          rw [← lookupA_eq_none_iff]
          exact Option.not_isSome_iff_eq_none.mp hfresh
        have hkeys : ((store2 ++ [(node1.name, node1)]).map Prod.fst).Nodup := by
          rw [List.map_append, List.nodup_append]
          refine ⟨hwf2.1, by simp, ?_⟩
          intro a ha hb
          simp at hb
          subst hb
          exact hnotmem ha
        have hnames : ∀ p ∈ store2 ++ [(node1.name, node1)], p.2.name = p.1 := by
          intro p hp
          rcases List.mem_append.mp hp with hp | hp
          · exact hwf2.2 p hp
          · simp at hp
            subst hp
            rfl
        exact ih _ _ _ h hkeys hnames

/-- C3 (amended): on the flat path, every node store for which the load
succeeds has pairwise distinct node names (and a duplicate declared name is
fatal, since a store containing it can never be returned); the hierarchical
path, by contrast, silently overwrites duplicate ids and can return
duplicate names, as the counterexample shows. -/
theorem c3_flat_unique (resolve : String → Option String) (la : List String)
    (sections : List (String × List (String × String)))
    (store : List (String × Node))
    (h : _read_nodes resolve la sections = .ok store) :
    (store.map (fun p => p.2.name)).Nodup := by
  unfold _read_nodes at h
  split at h
  · exact Except.noConfusion h
  · rename_i ns hloop
    split at h
    · exact Except.noConfusion h
    · simp only [Except.ok.injEq] at h
      subst h
      have hwf := readNodesLoop_wf resolve sections [] [] ns hloop (by simp) (by simp)
      have hmapeq : ns.map (fun p => p.2.name) = ns.map Prod.fst :=
        List.map_congr_left hwf.2
      rw [hmapeq]
      exact hwf.1

/-- C3 witness: the amended theorem applied to the flat load of a minimal
manager-and-proxy configuration. -/
theorem c3_flat_unique_witness :
    (exFlatStore.map (fun p => p.2.name)).Nodup :=
  c3_flat_unique exRes exLocal exFlatSections exFlatStore (by rfl)

/-! ## C8: the reserved separator -/

/-- C8 (amended): an ordinary (top-level, non-cluster) node entry whose id
contains the reserved separator is fatal; a cluster member id is not
checked, and processing one member binds the effective id
clusterId::memberId to the member node tagged with cluster = clusterId. -/
theorem c8_separator :
    (∀ (resolve : String → Option String)
       (st : BGraph × List (String × Node) × List (String × Nat))
       (ne : JNodeEntry) (i t : String),
      ne.entry.id = some i → ne.entry.type = some t → t ≠ "cluster" →
      containsDoubleColon i = true →
      processEntry resolve st ne =
        .error "Misconfigured ID entry of a node, id should not contain ::") ∧
    (∀ (resolve : String → Option String) (cid : String) (m : JEntry)
       (last : Option Node) (store : List (String × Node))
       (counts : List (String × Nat))
       (r : Option Node × List (String × Node) × List (String × Nat)),
      m.id.isSome → m.type.isSome →
      processMembers resolve cid [m] last store counts = .ok r →
      ∃ n : Node, r.1 = some n ∧ n.cluster = some cid ∧
        lookupA r.2.1 (cid ++ "::" ++ m.id.getD "") = some n) := by
  constructor
  · intro resolve st ne i t hid hty htc hsep
    obtain ⟨ov, store, counts⟩ := st
    have hpres : ¬ (ne.entry.id.isNone = true ∨ ne.entry.type.isNone = true) := by
      rw [hid, hty]
      simp
    have hclu : ¬ ne.entry.type = some "cluster" := by
      rw [hty]
      intro hc
      exact htc (Option.some.inj hc)
    have hgd : ne.entry.id.getD "" = i := by rw [hid]; rfl
    simp only [processEntry, if_neg hpres, if_neg hclu, hgd, if_pos hsep]
  · intro resolve cid m last store counts r hid hty h
    have hpres : ¬ (m.id.isNone = true ∨ m.type.isNone = true) := by
      rintro (hc | hc)
      · rw [Option.isNone_iff_eq_none] at hc
        rw [hc] at hid
        simp at hid
      · rw [Option.isNone_iff_eq_none] at hc
        rw [hc] at hty
        simp at hty
    simp only [processMembers, if_neg hpres] at h
    split at h
    · exact Except.noConfusion h
    · rename_i node store1 counts1 hget
      simp only [processMembers, Except.ok.injEq] at h
      refine ⟨{ node with cluster := some cid }, ?_, rfl, ?_⟩
      · rw [← h]
      · rw [← h]
        exact lookupA_insertA_self _ _ _

/-- C8 witness: the amended theorem applied to a concrete ordinary entry
with id x::y and to the concrete manager member of cluster D. -/
theorem c8_separator_witness :
    processEntry exRes ({}, [], []) c8wOrdinaryEntry =
      .error "Misconfigured ID entry of a node, id should not contain ::" ∧
    (∃ n : Node, c8wResult.1 = some n ∧ n.cluster = some "D" ∧
      lookupA c8wResult.2.1 ("D" ++ "::" ++ exMgrEntry.id.getD "") = some n) := by
  constructor
  · exact c8_separator.1 exRes ({}, [], []) c8wOrdinaryEntry "x::y" "worker"
      rfl rfl (by decide) (by decide)
  · exact c8_separator.2 exRes "D" exMgrEntry none [] [] c8wResult
      (by decide) (by decide) (by rfl)

/-! ## C6: scope contents -/

theorem insertA_map_of_lookup {α : Type} (l : List (String × α)) (k : String) (v : α)
    (hnodup : (l.map Prod.fst).Nodup) (hsome : (lookupA l k).isSome = true) :
    insertA l k v = l.map (fun kv => if kv.1 = k then (k, v) else kv) := by
  induction l with
  | nil => simp [lookupA] at hsome
  | cons p rest ih =>
    simp only [List.map_cons, List.nodup_cons] at hnodup
    by_cases hp : p.1 = k
    · have hid : ∀ kv ∈ rest, (fun kv : String × α =>
          if kv.1 = k then (k, v) else kv) kv = id kv := by
        intro kv hkv
        simp only [id]
        rw [if_neg]
        intro hkk
        exact hnodup.1 (hp ▸ hkk ▸ List.mem_map_of_mem Prod.fst hkv)
      simp only [insertA, if_pos hp, List.map_cons, if_pos hp]
      rw [List.map_congr_left hid, List.map_id]
    · have hsome' : (lookupA rest k).isSome = true := by
        simpa [lookupA, if_neg hp] using hsome
      simp only [insertA, if_neg hp, List.map_cons, if_neg hp]
      rw [ih hnodup.2 hsome']

theorem retypeRootStore_map (root : String) (store : List (String × Node))
    (hnodup : (store.map Prod.fst).Nodup) :
    retypeRootStore root store =
      store.map (fun kv => if kv.1 = root then (kv.1, retypePeerStandalone kv.2) else kv) := by
  cases hl : lookupA store root with
  | none =>
    have hno : ∀ kv ∈ store, kv.1 ≠ root := by
      intro kv hkv hk
      exact (lookupA_eq_none_iff store root).mp hl (hk ▸ List.mem_map_of_mem Prod.fst hkv)
    have hid : ∀ kv ∈ store, (fun kv : String × Node =>
        if kv.1 = root then (kv.1, retypePeerStandalone kv.2) else kv) kv = id kv := by
      intro kv hkv
      simp only [id]
      rw [if_neg (hno kv hkv)]
    simp only [retypeRootStore, hl]
    rw [List.map_congr_left hid, List.map_id]
  | some n =>
    have hval : ∀ kv ∈ store, kv.1 = root → kv.2 = n := by
      intro kv hkv hk
      have hlk := lookupA_of_mem_nodup store kv hkv hnodup
      rw [hk, hl] at hlk
      exact (Option.some.inj hlk).symm
    simp only [retypeRootStore, hl]
    by_cases hpeer : n.type = "peer"
    · rw [if_pos hpeer]
      rw [insertA_map_of_lookup store root _ hnodup (by rw [hl]; rfl)]
      apply List.map_congr_left
      intro kv hkv
      by_cases hk : kv.1 = root
      · rw [if_pos hk, if_pos hk, hval kv hkv hk, hk]
        simp [retypePeerStandalone, hpeer]
      · rw [if_neg hk, if_neg hk]
    · rw [if_neg hpeer]
      have hid : ∀ kv ∈ store, (fun kv : String × Node =>
          if kv.1 = root then (kv.1, retypePeerStandalone kv.2) else kv) kv = id kv := by
        intro kv hkv
        simp only [id]
        by_cases hk : kv.1 = root
        · rw [if_pos hk, hval kv hkv hk]
          simp only [retypePeerStandalone, if_neg hpeer]
          rw [← hval kv hkv hk]
        · rw [if_neg hk]
      rw [List.map_congr_left hid, List.map_id]

theorem scopeTarget_retype (root : String) (peerList : List String)
    (kv : String × Node) :
    scopeTarget root peerList
      (if kv.1 = root then (kv.1, retypePeerStandalone kv.2) else kv) =
    claimScopeTarget root peerList kv := by
  by_cases h : kv.1 = root
  · rw [if_pos h]
    simp [scopeTarget, claimScopeTarget, h]
  · rw [if_neg h]
    simp only [scopeTarget, claimScopeTarget, if_neg h]

theorem scopeLoop_fst_filterMap (root : String) (peerList : List String) :
    ∀ (l acc : List (String × Node)) (loc : Option Node),
    ((acc.map Prod.fst) ++ ((l.filterMap (scopeTarget root peerList)).map Prod.fst)).Nodup →
    (scopeLoop root peerList l acc loc).1 = acc ++ l.filterMap (scopeTarget root peerList) := by
  intro l
  induction l with
  | nil =>
    intro acc loc _
    simp [scopeLoop]
  | cons kv rest ih =>
    intro acc loc hnd
    obtain ⟨key, node⟩ := kv
    have main : ∀ (k' : String) (v' : Node) (loc' : Option Node),
        scopeTarget root peerList (key, node) = some (k', v') →
        (scopeLoop root peerList rest (insertA acc k' v') loc').1 =
          acc ++ ((key, node) :: rest).filterMap (scopeTarget root peerList) := by
      intro k' v' loc' htgt
      have hfm : (((key, node) :: rest).filterMap (scopeTarget root peerList)) =
          (k', v') :: rest.filterMap (scopeTarget root peerList) := by
        rw [List.filterMap_cons, htgt]
      rw [hfm]
      rw [hfm] at hnd
      simp only [List.map_cons] at hnd
      rcases List.nodup_append.mp hnd with ⟨hnd1, hnd2, hdisj⟩
      have hknot : k' ∉ acc.map Prod.fst :=
        fun hmem => hdisj hmem (List.mem_cons_self _ _)
      rw [insertA_eq_append acc k' v' hknot]
      have hnd' : (((acc ++ [(k', v')]).map Prod.fst) ++
          ((rest.filterMap (scopeTarget root peerList)).map Prod.fst)).Nodup := by
        rw [List.map_append, List.append_assoc]
        simpa using hnd
      rw [ih (acc ++ [(k', v')]) loc' hnd', List.append_assoc]
      rfl
    by_cases hb1 : key = root
    · have htgt : scopeTarget root peerList (key, node) = some (key, node) := by
        simp [scopeTarget, hb1]
      rw [show scopeLoop root peerList ((key, node) :: rest) acc loc =
          scopeLoop root peerList rest (insertA acc key node) (some node) from by
        simp [scopeLoop, hb1]]
      exact main key node (some node) htgt
    · by_cases hb2 : node.cluster = some root
      · have htgt : scopeTarget root peerList (key, node) = some (key, node) := by
          simp [scopeTarget, hb1, hb2]
        rw [show scopeLoop root peerList ((key, node) :: rest) acc loc =
            scopeLoop root peerList rest (insertA acc key node)
              (if node.type = "manager" ∨ node.type = "standalone" then some node
               else loc) from by
          simp [scopeLoop, hb1, hb2]]
        exact main key node _ htgt
      · by_cases hb3 : key ∈ peerList
        · have htgt : scopeTarget root peerList (key, node) =
              some (key, { node with type := "peer" }) := by
            simp [scopeTarget, hb1, hb2, hb3]
          rw [show scopeLoop root peerList ((key, node) :: rest) acc loc =
              scopeLoop root peerList rest
                (insertA acc key { node with type := "peer" }) loc from by
            simp [scopeLoop, hb1, hb2, hb3]]
          exact main key _ loc htgt
        · by_cases hb4 : clusterInPeers peerList node = true ∧ node.type = "manager"
          · have htgt : scopeTarget root peerList (key, node) =
                some (node.cluster.getD "", { node with type := "peer" }) := by
              simp only [scopeTarget]
              rw [if_neg hb1, if_neg hb2, if_neg hb3, if_pos hb4]
            rw [show scopeLoop root peerList ((key, node) :: rest) acc loc =
                scopeLoop root peerList rest
                  (insertA acc (node.cluster.getD "") { node with type := "peer" })
                  loc from by
              simp only [scopeLoop]
              rw [if_neg hb1, if_neg hb2, if_neg hb3, if_pos hb4]]
            exact main _ _ loc htgt
          · have htgt : scopeTarget root peerList (key, node) = none := by
              simp only [scopeTarget]
              rw [if_neg hb1, if_neg hb2, if_neg hb3, if_neg hb4]
            have hfm : (((key, node) :: rest).filterMap (scopeTarget root peerList)) =
                rest.filterMap (scopeTarget root peerList) := by
              rw [List.filterMap_cons, htgt]
            rw [show scopeLoop root peerList ((key, node) :: rest) acc loc =
                scopeLoop root peerList rest acc loc from by
              simp only [scopeLoop]
              rw [if_neg hb1, if_neg hb2, if_neg hb3, if_neg hb4]]
            rw [hfm]
            rw [hfm] at hnd
            exact ih acc loc hnd

/-- C6 (amended): provided the classification classes of the store target
pairwise distinct scope keys, a successful scope resolution retains exactly
the scope the spec describes: the root (retyped standalone if declared
peer), the root-cluster vertices, the successors retyped peer, and the
successor-cluster managers retyped peer under their cluster ids, checked in
that precedence; when two classes target the same key, the later-processed
entry silently overwrites the earlier one, as the counterexample shows. -/
theorem c6_scope_exact (la : List String) (root : String) (peerList : List String)
    (store scope : List (String × Node)) (ln : Node)
    (hnodup : (store.map Prod.fst).Nodup)
    (hkeys : ((claimScope root peerList store).map Prod.fst).Nodup)
    (h : resolveScope la root peerList store = .ok (scope, ln)) :
    scope = claimScope root peerList store := by
  have hmap := retypeRootStore_map root store hnodup
  have hcomp : (retypeRootStore root store).filterMap (scopeTarget root peerList) =
      claimScope root peerList store := by
    rw [hmap, List.filterMap_map]
    have hfun : (scopeTarget root peerList) ∘
        (fun kv : String × Node =>
          if kv.1 = root then (kv.1, retypePeerStandalone kv.2) else kv) =
        claimScopeTarget root peerList :=
      funext (fun kv => scopeTarget_retype root peerList kv)
    rw [hfun]
    rfl
  simp only [resolveScope] at h
  rcases hsl : scopeLoop root peerList (retypeRootStore root store) [] none with ⟨sc, loc⟩
  rw [hsl] at h
  cases loc with
  | none => exact Except.noConfusion h
  | some l0 =>
    split at h
    · exact Except.noConfusion h
    · rename_i scope1 ln1 heq
      injection heq with hA hB
      subst hA
      injection hB with hB1
      subst hB1
      split at h
      · exact Except.noConfusion h
      · injection h with hpair
        have hsc : sc = scope := congrArg Prod.fst hpair
        subst hsc
        have hnd : ((([] : List (String × Node)).map Prod.fst) ++
            (((retypeRootStore root store).filterMap
              (scopeTarget root peerList)).map Prod.fst)).Nodup := by
          rw [hcomp]
          simpa using hkeys
        have hloop := scopeLoop_fst_filterMap root peerList
          (retypeRootStore root store) [] none hnd
        rw [hsl] at hloop
        simp only at hloop
        rw [hloop, List.nil_append, hcomp]

/-- C6 witness: the amended theorem applied to the store holding only the
standalone root R, whose resolved scope equals the described scope. -/
theorem c6_scope_exact_witness :
    [("R", exRootNode)] = claimScope "R" [] c6wStore :=
  c6_scope_exact exLocal "R" [] c6wStore [("R", exRootNode)] exRootNode
    (by decide) (by decide) (by rfl)

/-! ## C7: the emitted per-peer document -/

theorem addNew_pres (P : String → Prop) :
    ∀ (ws acc : List String), (∀ w ∈ ws, P w) → (∀ u ∈ acc, P u) →
    ∀ u ∈ addNew ws acc, P u := by
  intro ws
  induction ws with
  | nil =>
    intro acc _ hacc
    simpa [addNew] using hacc
  | cons w ws ih =>
    intro acc hws hacc
    simp only [addNew]
    apply ih
    · intro w' hw'
      exact hws w' (List.mem_cons_of_mem w hw')
    · intro u hu
      by_cases hmem : w ∈ acc
      · rw [if_pos hmem] at hu
        exact hacc u hu
      · rw [if_neg hmem] at hu
        rcases List.mem_append.mp hu with hu | hu
        · exact hacc u hu
        · simp at hu
          subst hu
          exact hws u (List.mem_cons_self _ _)

theorem growFrom_pres (P : String → Prop) (next : String → List String)
    (hclosed : ∀ v w, P v → w ∈ next v → P w) :
    ∀ (vs acc : List String), (∀ v ∈ vs, P v) → (∀ u ∈ acc, P u) →
    ∀ u ∈ growFrom next vs acc, P u := by
  intro vs
  induction vs with
  | nil =>
    intro acc _ hacc
    simpa [growFrom] using hacc
  | cons v vs ih =>
    intro acc hvs hacc
    simp only [growFrom]
    apply ih
    · intro v' hv'
      exact hvs v' (List.mem_cons_of_mem v hv')
    · exact addNew_pres P (next v) acc
        (fun w hw => hclosed v w (hvs v (List.mem_cons_self _ _)) hw) hacc

theorem iterGrow_pres (P : String → Prop) (next : String → List String)
    (hclosed : ∀ v w, P v → w ∈ next v → P w) :
    ∀ (fuel : Nat) (seen : List String), (∀ u ∈ seen, P u) →
    ∀ u ∈ iterGrow next fuel seen, P u := by
  intro fuel
  induction fuel with
  | zero =>
    intro seen hseen
    simpa [iterGrow] using hseen
  | succ n ih =>
    intro seen hseen
    simp only [iterGrow]
    exact ih (grow next seen) (growFrom_pres P next hclosed seen seen hseen hseen)

theorem descendSet_reaches (g : BGraph) (v : String) :
    ∀ u ∈ descendSet g v, Reaches g v u := by
  have hclosed : ∀ a b, Reaches g v a → b ∈ getSuccessors g a → Reaches g v b := by
    intro a b hab hmem
    simp only [getSuccessors, List.mem_filterMap] at hmem
    obtain ⟨e, he, heq⟩ := hmem
    by_cases h1 : e.1 = a
    · rw [if_pos h1] at heq
      have h2 : e.2 = b := Option.some.inj heq
      have hedge : (a, b) ∈ g.edges := by
        rw [← h1, ← h2]
        simpa using he
      exact Relation.ReflTransGen.tail hab hedge
    · rw [if_neg h1] at heq
      exact Option.noConfusion heq
  exact iterGrow_pres (Reaches g v) (getSuccessors g) hclosed g.verts.length [v]
    (by intro u hu; simp at hu; subst hu; exact Relation.ReflTransGen.refl)

/-- C7: the document the peer emitter produces for a peer consists of the
local node identity as head (id, roles, cluster, resolved host address and
port, each emitted when the node carries it), exactly the declaration
payloads of the vertices of the subgraph rooted at the peer (its cluster id
when it represents a cluster, its own name otherwise), and exactly the
edges internal to that subgraph; every vertex of the document is a directed
descendant of the peer root, so no vertex outside the induced subgraph
appears. -/
theorem c7_peer_doc (ov : BGraph) (localNode node : Node) :
    (makeNodeConfig ov localNode node).headId = localNode.name ∧
    (makeNodeConfig ov localNode node).headRoles = localNode.roles ∧
    (makeNodeConfig ov localNode node).headCluster = localNode.cluster ∧
    (makeNodeConfig ov localNode node).headHost = localNode.addr ∧
    (makeNodeConfig ov localNode node).headPort = localNode.port ∧
    (makeNodeConfig ov localNode node).nodes =
      (getSubgraph ov (peerRootId node)).verts.map (fun v => lookupA ov.attrs v) ∧
    (makeNodeConfig ov localNode node).connections =
      (getSubgraph ov (peerRootId node)).edges ∧
    (∀ u ∈ (getSubgraph ov (peerRootId node)).verts, Reaches ov (peerRootId node) u) ∧
    (∀ e ∈ (makeNodeConfig ov localNode node).connections,
      e.1 ∈ (getSubgraph ov (peerRootId node)).verts ∧
      e.2 ∈ (getSubgraph ov (peerRootId node)).verts ∧ e ∈ ov.edges) := by
  refine ⟨rfl, rfl, rfl, rfl, rfl, rfl, rfl, ?_, ?_⟩
  · exact descendSet_reaches ov (peerRootId node)
  · intro e he
    have hmem : e ∈ (getSubgraph ov (peerRootId node)).edges := he
    simp only [getSubgraph, List.mem_filter, decide_eq_true_eq] at hmem
    exact ⟨hmem.2.1, hmem.2.2, hmem.1⟩

/-- C7 witness: the theorem applied to the concrete one-edge overlay; the
head names the local node R and the successor S lies in the emitted
subgraph, reachable from its root. -/
theorem c7_peer_doc_witness :
    (makeNodeConfig c6Overlay exRootNode exRootNode).headId = "R" ∧
    Reaches c6Overlay "R" "S" := by
  have h := c7_peer_doc c6Overlay exRootNode exRootNode
  constructor
  · rw [h.1]
    rfl
  · exact h.2.2.2.2.2.2.2.1 "S" (by decide)

/-! ## C1: interface consumption order -/

theorem popLast_concat {α : Type} (l : List α) (x : α) :
    popLast (l ++ [x]) = some (x, l) := by
  induction l with
  | nil => rfl
  | cons a rest ih =>
    cases rest with
    | nil => simp [popLast]
    | cons b rest2 =>
      simp only [List.cons_append, List.append_eq, popLast] at ih ⊢
      rw [ih]

theorem take_succ_getD (l : List String) (n : Nat) (h : n < l.length) :
    l.take (n + 1) = l.take n ++ [l.getD n ""] := by
  rw [List.take_succ]
  congr 1
  cases hg : l[n]? with
  | none =>
    rw [List.getElem?_eq_none_iff] at hg
    omega
  | some x =>
    have : l.getD n "" = x := by
      rw [List.getD_eq_getElem?_getD, hg]
      rfl
    rw [this]
    rfl

theorem expandLoop_mono (origname : String) (base : Node) (pins : List Int) :
    ∀ (nums : List Nat) (netifs : List String) (store : List (String × Node))
      (counts : List (String × Nat)) (store1 : List (String × Node))
      (counts1 : List (String × Nat)) (rest1 : List String),
    expandLoop origname base pins nums netifs store counts = .ok (store1, counts1, rest1) →
    ∀ key v, lookupA store key = some v → lookupA store1 key = some v := by
  intro nums
  induction nums with
  | nil =>
    intro netifs store counts store1 counts1 rest1 h key v hk
    simp only [expandLoop, Except.ok.injEq, Prod.mk.injEq] at h
    obtain ⟨hs, _, _⟩ := h
    subst hs
    exact hk
  | cons num rest ih =>
    intro netifs store counts store1 counts1 rest1 h key v hk
    simp only [expandLoop] at h
    split at h
    · exact Except.noConfusion h
    · split at h
      · split at h
        · exact ih _ _ _ _ _ _ h key v (lookupA_append_left _ _ _ _ hk)
        · exact Except.noConfusion h
      · exact ih _ _ _ _ _ _ h key v (lookupA_append_left _ _ _ _ hk)

theorem expandLoop_iface_assign (origname : String) (base : Node) (pins : List Int)
    (full : List String) (hm : base.lb_method = "interfaces") :
    ∀ (len start : Nat) (store : List (String × Node)) (counts : List (String × Nat))
      (store1 : List (String × Node)) (counts1 : List (String × Nat)) (rest1 : List String),
    2 ≤ start →
    start + len = full.length + 1 →
    expandLoop origname base pins (List.range' start len)
      (full.take (full.length + 1 - start)) store counts = .ok (store1, counts1, rest1) →
    ∀ i, start ≤ i → i < start + len →
      ∃ ni : Node, lookupA store1 (origname ++ "-" ++ Nat.repr i) = some ni ∧
        ni.interface = pyStrip (full.getD (full.length - i) "") := by
  intro len
  induction len with
  | zero =>
    intro start store counts store1 counts1 rest1 _ _ _ i hi1 hi2
    omega
  | succ n ih =>
    intro start store counts store1 counts1 rest1 h2 hsum h i hi1 hi2
    rw [List.range'_succ] at h
    simp only [expandLoop] at h
    split at h
    · exact Except.noConfusion h
    · rename_i hfresh
      have hstartle : start ≤ full.length := by omega
      have htk : full.length + 1 - start = (full.length - start) + 1 := by omega
      have hlt : full.length - start < full.length := by omega
      have hsplit : full.take (full.length + 1 - start) =
          full.take (full.length - start) ++ [full.getD (full.length - start) ""] := by
        rw [htk]
        exact take_succ_getD full (full.length - start) hlt
      rw [hsplit, popLast_concat] at h
      dsimp only at h
      have harith : full.length + 1 - (start + 1) = full.length - start := by omega
      have ih' := ih (start + 1)
      rw [harith] at ih'
      have hfresh' : lookupA store (origname ++ "-" ++ Nat.repr start) = none :=
        Option.not_isSome_iff_eq_none.mp hfresh
      rcases Nat.eq_or_lt_of_le hi1 with hieq | hilt
      · subst hieq
        have step : ∀ nn : Node,
            expandLoop origname base pins (List.range' (start + 1) n)
              (full.take (full.length - start))
              (store ++ [(origname ++ "-" ++ Nat.repr start, nn)])
              (bumpCount counts base.type) = .ok (store1, counts1, rest1) →
            ∃ ni : Node, lookupA store1 (origname ++ "-" ++ Nat.repr start) = some ni ∧
              ni.interface = nn.interface := by
          intro nn hh
          refine ⟨nn, ?_, rfl⟩
          refine expandLoop_mono origname base pins _ _ _ _ _ _ _ hh _ nn ?_
          rw [lookupA_append_right _ _ _ hfresh']
          simp [lookupA]
        obtain ⟨ni, hni, hface⟩ := step _ h
        exact ⟨ni, hni, hface⟩
      · exact ih' _ _ _ _ _ (by omega) (by omega) h i (by omega) (by omega)

theorem checkNodeNumprocs_worker (n : Node) (kk : Int)
    (h_ty : n.type = "worker") (h_procs : pythonInt n.lb_procs = some kk)
    (h_k2 : 2 ≤ kk) (h_lbne : n.lb_procs ≠ "") :
    checkNodeNumprocs n = .ok kk.toNat := by
  have hworker : ¬ n.type ≠ "worker" := by rw [h_ty]; simp
  simp only [checkNodeNumprocs, if_pos h_lbne, if_neg hworker, h_procs]
  rw [if_neg (by omega)]

theorem pythonInt_empty : pythonInt "" = none := rfl

theorem checkNode_to_lb (resolve : String → Option String) (node : Node)
    (store : List (String × Node)) (counts : List (String × Nat))
    (a : String) (evd : List (String × String)) (kk : Int) (pins : List Int)
    (h_ty : node.type = "worker") (h_host : node.host ≠ "")
    (h_res : resolve node.host = some a)
    (h_env : _get_env_var_dict node.env_vars = .ok evd)
    (h_procs : pythonInt node.lb_procs = some kk) (h_k2 : 2 ≤ kk)
    (h_pin : _get_pin_cpu_list node.pin_cpus kk.toNat = some pins) :
    _check_node resolve node store counts =
      checkNodeLb (nodeAfter node a evd counts pins) kk.toNat pins store
        (bumpCount counts node.type) := by
  have h_lbne : node.lb_procs ≠ "" := by
    intro hc
    rw [hc, pythonInt_empty] at h_procs
    exact Option.noConfusion h_procs
  have hc1 : ¬ node.type = "" := by rw [h_ty]; simp
  have hc2 : ¬ node.type ∉ allowedTypes := by rw [h_ty]; simp [allowedTypes]
  cases pins with
  | nil =>
    simp only [_check_node, if_neg hc1, if_neg hc2, if_neg h_host, h_res, h_env]
    rw [checkNodeNumprocs_worker _ kk (by exact h_ty) (by exact h_procs) h_k2
      (by exact h_lbne)]
    simp only [h_pin]
    simp only [nodeAfter]
    rw [if_neg (by exact h_lbne)]
  | cons c cs =>
    simp only [_check_node, if_neg hc1, if_neg hc2, if_neg h_host, h_res, h_env]
    rw [checkNodeNumprocs_worker _ kk (by exact h_ty) (by exact h_procs) h_k2
      (by exact h_lbne)]
    simp only [h_pin]
    simp only [nodeAfter]
    rw [if_neg (by exact h_lbne)]

theorem checkNodeIfacesStep_empty (nodeD : Node) (k : Nat)
    (hm : nodeD.lb_method = "interfaces") (he : nodeD.lb_interfaces = "") :
    checkNodeIfacesStep nodeD k =
      .error ("List of load-balanced interfaces not specified for node " ++ nodeD.name) := by
  simp only [checkNodeIfacesStep, if_pos hm, if_pos he]

theorem checkNodeIfacesStep_mismatch (nodeD : Node) (k : Nat)
    (hm : nodeD.lb_method = "interfaces") (hne : ¬ nodeD.lb_interfaces = "")
    (hlen : (pySplitChar ',' nodeD.lb_interfaces).length ≠ k) :
    checkNodeIfacesStep nodeD k =
      .error ("Number of load-balanced interfaces is not same as number of load-balanced processes for node " ++ nodeD.name) := by
  simp only [checkNodeIfacesStep, if_pos hm, if_neg hne]
  rw [if_pos hlen]

theorem checkNodeIfacesStep_ok (nodeD : Node) (k : Nat)
    (hm : nodeD.lb_method = "interfaces") (hne : ¬ nodeD.lb_interfaces = "")
    (hlen : (pySplitChar ',' nodeD.lb_interfaces).length = k) (hk2 : 2 ≤ k) :
    checkNodeIfacesStep nodeD k =
      .ok ({ nodeD with interface := pyStrip ((pySplitChar ',' nodeD.lb_interfaces).getD (k - 1) "") },
           (pySplitChar ',' nodeD.lb_interfaces).take (k - 1)) := by
  simp only [checkNodeIfacesStep, if_pos hm, if_neg hne]
  rw [if_neg (by omega)]
  have hlt : k - 1 < (pySplitChar ',' nodeD.lb_interfaces).length := by omega
  have h1 := take_succ_getD (pySplitChar ',' nodeD.lb_interfaces) (k - 1) hlt
  rw [show k - 1 + 1 = k from by omega] at h1
  have h2 : (pySplitChar ',' nodeD.lb_interfaces).take k =
      pySplitChar ',' nodeD.lb_interfaces := by
    rw [← hlen]
    exact List.take_length _
  rw [h2] at h1
  have hpop : popLast (pySplitChar ',' nodeD.lb_interfaces) =
      some ((pySplitChar ',' nodeD.lb_interfaces).getD (k - 1) "",
        (pySplitChar ',' nodeD.lb_interfaces).take (k - 1)) := by
    conv_lhs => rw [h1]
    exact popLast_concat _ _
  rw [hpop]

theorem checkNodeLb_iface_ok (nodeD : Node) (k : Nat) (pins : List Int)
    (store : List (String × Node)) (counts : List (String × Nat))
    (n1 : Node) (store1 : List (String × Node)) (counts1 : List (String × Nat))
    (hm : nodeD.lb_method = "interfaces")
    (hne : ¬ nodeD.lb_interfaces = "")
    (hlen : (pySplitChar ',' nodeD.lb_interfaces).length = k)
    (hk2 : 2 ≤ k)
    (hok : checkNodeLb nodeD k pins store counts = .ok (n1, store1, counts1)) :
    n1.name = nodeD.name ++ "-1" ∧
    n1.interface = pyStrip ((pySplitChar ',' nodeD.lb_interfaces).getD (k - 1) "") ∧
    ∀ i, 2 ≤ i → i ≤ k →
      ∃ ni : Node, lookupA store1 (nodeD.name ++ "-" ++ Nat.repr i) = some ni ∧
        ni.interface = pyStrip ((pySplitChar ',' nodeD.lb_interfaces).getD (k - i) "") := by
  simp only [checkNodeLb] at hok
  rw [if_neg (by rw [hm]; decide), if_neg (by rw [hm]; decide)] at hok
  rw [checkNodeIfacesStep_ok nodeD k hm hne hlen hk2] at hok
  dsimp only at hok
  split at hok
  · exact Except.noConfusion hok
  · rename_i st1 cts1 rst hloop
    injection hok with hpair
    have e1 := congrArg Prod.fst hpair
    have e2 := congrArg (fun p : Node × List (String × Node) × List (String × Nat) => p.2.1) hpair
    simp only at e1 e2
    subst e1
    subst e2
    refine ⟨rfl, rfl, ?_⟩
    intro i hi2 hik
    have hlen2 : 2 ≤ (pySplitChar ',' nodeD.lb_interfaces).length := by omega
    rw [show k - 1 = (pySplitChar ',' nodeD.lb_interfaces).length + 1 - 2 from by omega]
      at hloop
    obtain ⟨ni, hni, hfa⟩ := expandLoop_iface_assign nodeD.name _ pins
      (pySplitChar ',' nodeD.lb_interfaces) (by exact hm)
      ((pySplitChar ',' nodeD.lb_interfaces).length + 1 - 2) 2 store counts st1 cts1 rst
      (by omega) (by omega) hloop i (by omega) (by omega)
    refine ⟨ni, hni, ?_⟩
    rw [show k - i = (pySplitChar ',' nodeD.lb_interfaces).length - i from by omega]
    exact hfa

/-- C1 (amended): for a worker with lb_method interfaces and lb_procs k,
validation requires a nonempty lb_interfaces list (empty is fatal) whose
length exactly equals k (a mismatch is fatal), and on success the declared
interfaces are consumed from the END of the list: the base replica B-1
receives the k-th (last) declared interface and replica B-i receives the
(k+1-i)-th declared interface, reversing the declaration order the original
claim asserts. -/
theorem c1_interfaces_reversed
    (resolve : String → Option String) (node : Node)
    (store : List (String × Node)) (counts : List (String × Nat))
    (a : String) (evd : List (String × String)) (k : Nat) (pins : List Int)
    (h_ty : node.type = "worker") (h_host : node.host ≠ "")
    (h_res : resolve node.host = some a)
    (h_env : _get_env_var_dict node.env_vars = .ok evd)
    (h_procs : pythonInt node.lb_procs = some (k : Int)) (h_k2 : 2 ≤ k)
    (h_pin : _get_pin_cpu_list node.pin_cpus k = some pins)
    (h_m : node.lb_method = "interfaces") :
    (node.lb_interfaces = "" →
      _check_node resolve node store counts =
        .error ("List of load-balanced interfaces not specified for node " ++ node.name)) ∧
    (node.lb_interfaces ≠ "" → (pySplitChar ',' node.lb_interfaces).length ≠ k →
      _check_node resolve node store counts =
        .error ("Number of load-balanced interfaces is not same as number of load-balanced processes for node " ++ node.name)) ∧
    (∀ (n1 : Node) (store1 : List (String × Node)) (counts1 : List (String × Nat)),
      (pySplitChar ',' node.lb_interfaces).length = k →
      _check_node resolve node store counts = .ok (n1, store1, counts1) →
      n1.name = node.name ++ "-1" ∧
      n1.interface = pyStrip ((pySplitChar ',' node.lb_interfaces).getD (k - 1) "") ∧
      (∀ i, 2 ≤ i → i ≤ k →
        ∃ ni : Node, lookupA store1 (node.name ++ "-" ++ Nat.repr i) = some ni ∧
          ni.interface = pyStrip ((pySplitChar ',' node.lb_interfaces).getD (k - i) ""))) := by
  have hint : ((k : Int)).toNat = k := by simp
  have hred := checkNode_to_lb resolve node store counts a evd (k : Int) pins
    h_ty h_host h_res h_env h_procs (by exact_mod_cast h_k2) (by rw [hint]; exact h_pin)
  rw [hint] at hred
  have hDname : (nodeAfter node a evd counts pins).name = node.name := by
    cases pins <;> rfl
  have hDm : (nodeAfter node a evd counts pins).lb_method = node.lb_method := by
    cases pins <;> rfl
  have hDi : (nodeAfter node a evd counts pins).lb_interfaces = node.lb_interfaces := by
    cases pins <;> rfl
  refine ⟨?_, ?_, ?_⟩
  · intro hempty
    rw [hred]
    simp only [checkNodeLb]
    rw [if_neg (by rw [hDm, h_m]; decide), if_neg (by rw [hDm, h_m]; decide)]
    rw [checkNodeIfacesStep_empty _ k (hDm.trans h_m) (hDi.trans hempty), hDname]
  · intro hne hlen
    rw [hred]
    simp only [checkNodeLb]
    rw [if_neg (by rw [hDm, h_m]; decide), if_neg (by rw [hDm, h_m]; decide)]
    rw [checkNodeIfacesStep_mismatch _ k (hDm.trans h_m)
      (by rw [hDi]; exact hne) (by rw [hDi]; exact hlen), hDname]
  · intro n1 store1 counts1 hlen hok
    rw [hred] at hok
    have hne : node.lb_interfaces ≠ "" := by
      intro hc
      rw [hc] at hlen
      have h1 : (pySplitChar ',' "").length = 1 := rfl
      omega
    obtain ⟨hc1c, hc2c, hc3c⟩ := checkNodeLb_iface_ok (nodeAfter node a evd counts pins)
      k pins store (bumpCount counts node.type) n1 store1 counts1
      (hDm.trans h_m) (by rw [hDi]; exact hne) (by rw [hDi]; exact hlen) h_k2 hok
    refine ⟨?_, ?_, ?_⟩
    · rw [hc1c, hDname]
    · rw [hc2c, hDi]
    · intro i hi1 hi2
      obtain ⟨ni, hni, hf⟩ := hc3c i hi1 hi2
      rw [hDname] at hni
      rw [hDi] at hf
      exact ⟨ni, hni, hf⟩

/-- C1 witness: the amended theorem applied to the concrete two-interface
worker; the second replica w-2 receives the first declared interface. -/
theorem c1_interfaces_reversed_witness :
    ∃ ni : Node, lookupA c1wStore1 ("w" ++ "-" ++ Nat.repr 2) = some ni ∧
      ni.interface = pyStrip ((pySplitChar ',' exWIface.lb_interfaces).getD 0 "") := by
  have h := (c1_interfaces_reversed exRes exWIface [] [] "1.2.3.4" [] 2 []
    rfl (by decide) rfl rfl rfl (by decide) rfl rfl).2.2
    c1wN1 c1wStore1 c1wCounts1 (by decide) (by rfl)
  exact h.2.2 2 (by decide) (by decide)

end Broctl
